import Mathlib

/-!
# Verification of the WireGuard control-plane agent

A shallow embedding, in Lean 4, of the pure core of the Python sources of
the `Automais.IO.vpnserver` repository, together with theorems settling the
spec claims about it.

Conventions of the embedding:

* Python `str` is modelled as `List Char` (`Text` below); Python string
  literals are written as `"...".data`.
* Python whitespace (for `str.strip` / regex `\s`) is modelled by the six
  ASCII whitespace characters, which is what the program ever encounters.
* External commands (`wg show`, `wg-quick strip`, `wg genkey`, ...) are
  modelled by an oracle record `SysEnv` of pure functions: the outcome of a
  command is assumed to depend only on the data it is given (the interface
  name, or the exact file content being validated), which holds for a
  deterministic toolchain within one reconcile pass.
* Python exceptions are modelled with `Except Unit`; fallible parses with
  `Option`.
* The file system is an association list from config paths to file contents;
  kernel-affecting commands are recorded as an `Act` trace.
-/

/-- Python `str` is embedded as a list of characters. -/
abbrev Text := List Char

/-- The ASCII whitespace characters: the set Python `str.strip()` and the
regex class `\s` act on, restricted to ASCII (": ", tab, LF, CR, VT, FF). -/
def isWsChar (c : Char) : Bool :=
  c = ' ' || c = '\t' || c = '\n' || c = '\r' || c = '\u000B' || c = '\u000C'

/-- Python `str.lstrip()`. -/
def lstripT (s : Text) : Text := s.dropWhile isWsChar

/-- Python `str.rstrip()`: drop trailing whitespace. -/
def rstripT (s : Text) : Text := s.rdropWhile isWsChar

/-- Python `str.strip()`. -/
def stripT (s : Text) : Text := rstripT (lstripT s)

/-- Split a text at every occurrence of a separator character, Python
`str.split(sep)`: `splitCh ',' "" = [""]`, and the number of parts is one
more than the number of separators. -/
def splitCh (sep : Char) : Text → List Text
  | [] => [[]]
  | c :: cs =>
    if c = sep then [] :: splitCh sep cs
    else
      match splitCh sep cs with
      | [] => [[c]]
      | l :: ls => (c :: l) :: ls

/-- Python join-with-separator (used for `'\n'.join` and `','.join`). -/
def joinCh (sep : Char) : List Text → Text
  | [] => []
  | [l] => l
  | l :: ls => l ++ sep :: joinCh sep ls

/-- Python `s.split(sep, 1)` realised for a single character: the part
before the first occurrence and the part after it.  Only used when the
separator is known to occur. -/
def splitOnce (sep : Char) : Text → Text × Text
  | [] => ([], [])
  | c :: cs =>
    if c = sep then ([], cs)
    else
      let p := splitOnce sep cs
      (c :: p.1, p.2)

/-- Python `prefix + str(n)`: decimal digits of a natural number. -/
def digitChar (k : Nat) : Char := Char.ofNat (48 + k)

/-- Digit accumulation with explicit fuel (`n + 1` steps always suffice),
kept structural so that proofs can evaluate it. -/
def natDigitsGo : Nat → Nat → Text → Text
  | 0, _, acc => acc
  | fuel + 1, n, acc =>
    if n < 10 then digitChar n :: acc
    else natDigitsGo fuel (n / 10) (digitChar (n % 10) :: acc)

/-- Python `str(n)` for a non-negative integer. -/
def natText (n : Nat) : Text := natDigitsGo (n + 1) n []

/-- `True` iff the text contains no newline character. -/
def noNl (s : Text) : Prop := '\n' ∉ s

instance (s : Text) : Decidable (noNl s) := by
  unfold noNl; infer_instance

section AllowedIps
/-! ## `wireguard.normalize_allowed_ips` (src/wireguard.py:54) -/

/-- The coercion applied to the first comma-separated element (already
stripped): `/32` is appended when no `/` is present, and an existing
prefix other than `32` is replaced by `/32`. -/
def coerceFirstIp (f : Text) : Text :=
  if f.contains '/' then
    if (splitOnce '/' f).2 ≠ "32".data then (splitOnce '/' f).1 ++ "/32".data
    else f
  else f ++ "/32".data

/-- `normalize_allowed_ips` (src/wireguard.py:54-83). -/
def normalizeAllowedIps (allowed_ips : Text) : Text :=
  if allowed_ips = [] ∨ stripT allowed_ips = [] then allowed_ips
  else
    let ps := (splitCh ',' allowed_ips).map stripT
    match ps with
    | [] => allowed_ips
    | f :: rest => joinCh ',' (coerceFirstIp f :: rest)

end AllowedIps

section StatusClassify
/-! ## Runtime status classification (src/status.py:194-250)

The wall clock `datetime.now(timezone.utc).timestamp()` is a real number;
it is modelled as a rational.  The handshake timestamp, when available, is
an `Int` (`int(...)` in the source). -/

/-- The status decision of `get_wireguard_status` for one peer, given the
effective handshake timestamp (`None` when neither the `wg show` reparse nor
the dump provided one) and the current wall-clock time: follows
src/status.py lines 212-250 literally. -/
def classifyPeerStatus (handshake : Option Int) (now : ℚ) : String :=
  match handshake with
  | none => "offline"
  | some ts =>
    if ts ≠ 0 ∧ 0 < ts then
      if now - (ts : ℚ) < 0 then "offline"
      else if now - (ts : ℚ) < 180 then "online"
      else "offline"
    else "offline"

/-- Selection of the effective handshake timestamp (src/status.py:198-210):
the `wg show` reparse is preferred; the dump string is used only when
non-empty, not `"0"`, not whitespace-only, and parseable as an integer. -/
def effectiveHandshake (updated : Option Int) (dumpStr : Option Text)
    (parsedDump : Option Int) : Option Int :=
  match updated with
  | some t => some t
  | none =>
    match dumpStr with
    | none => none
    | some s =>
      if s ≠ [] ∧ s ≠ "0".data ∧ stripT s ≠ [] then parsedDump else none

end StatusClassify

section PeerCache
/-! ## Peer identity cache (src/peer_cache.py) -/

/-- One cache record: every field is optional, exactly as in the Python
dict literal of `set_peer_info`. -/
structure PeerInfo where
  router_id : Option Text
  router_name : Option Text
  vpn_network_id : Option Text
  vpn_network_name : Option Text
  peer_ip : Option Text
  allowed_ips : Option Text
  deriving DecidableEq

/-- The in-memory cache `_peer_cache`, a `public_key -> PeerInfo` mapping
with Python-dict (insertion-order, overwrite-in-place) semantics. -/
abbrev PeerCache := List (Text × PeerInfo)

def cacheLookup : PeerCache → Text → Option PeerInfo
  | [], _ => none
  | e :: es, pk => if e.1 = pk then some e.2 else cacheLookup es pk

def cacheSet : PeerCache → Text → PeerInfo → PeerCache
  | [], pk, info => [(pk, info)]
  | e :: es, pk, info =>
    if e.1 = pk then (pk, info) :: es else e :: cacheSet es pk info

/-- `set_peer_info` (src/peer_cache.py:27-76): a falsy `public_key` is a
no-op; an existing entry is updated field-by-field, each field only when the
corresponding argument `is not None`; a missing entry is created with the
arguments as given. -/
def setPeerInfo (cache : PeerCache) (pk : Text)
    (rid rname vid vname pip aips : Option Text) : PeerCache :=
  if pk = [] then cache
  else
    match cacheLookup cache pk with
    | some old =>
      cacheSet cache pk
        { router_id := if rid.isSome then rid else old.router_id
          router_name := if rname.isSome then rname else old.router_name
          vpn_network_id := if vid.isSome then vid else old.vpn_network_id
          vpn_network_name := if vname.isSome then vname else old.vpn_network_name
          peer_ip := if pip.isSome then pip else old.peer_ip
          allowed_ips := if aips.isSome then aips else old.allowed_ips }
    | none =>
      cacheSet cache pk
        { router_id := rid, router_name := rname, vpn_network_id := vid
          vpn_network_name := vname, peer_ip := pip, allowed_ips := aips }

end PeerCache

section DataModel
/-! ## Inventory data model (snapshot payloads of src/sync.py / src/models.py) -/

/-- A WireGuard peer as it appears in the inventory snapshot.  A missing
`public_key`/`allowed_ips` is modelled by the empty text (the code reads
them with `.get(..., "")`); `is_enabled` defaults to `True` at the dict
boundary, so the field is a plain `Bool` here. -/
structure Peer where
  id : Text
  public_key : Text
  allowed_ips : Text
  is_enabled : Bool
  deriving DecidableEq

structure Router where
  id : Text
  name : Text
  vpn_network_id : Text
  peers : List Peer
  deriving DecidableEq

/-- A VPN network of the snapshot.  Optional/missing string fields are
modelled by the empty text, matching Python falsiness checks. -/
structure VpnNetwork where
  id : Text
  name : Text
  cidr : Text
  dns_servers : Text
  server_private_key : Text
  server_public_key : Text
  deriving DecidableEq

/-- `get_interface_name` (src/wireguard.py:17-20). -/
def interfaceName (vpn_network_id : Text) : Text :=
  "wg-".data ++ (vpn_network_id.filter (fun c => c ≠ '-')).take 8

/-- The config file path of an interface
(`WIREGUARD_CONFIG_DIR` defaults to `/etc/wireguard`). -/
def cfgPath (iface : Text) : Text :=
  "/etc/wireguard/".data ++ iface ++ ".conf".data

/-- The module-level `managed_resources` dict (src/sync.py:16-20). -/
structure ManagedState where
  vpn_networks : List VpnNetwork
  routers : List Router
  last_sync : Option Text
  deriving DecidableEq

end DataModel

section Cidr
/-! ## `parse_cidr` / `get_server_ip` (src/wireguard.py:38-51)

`ipaddress.IPv4Network(cidr, strict=False)` is modelled for dotted-quad
addresses with an optional decimal prefix length; the rarely used dotted
netmask/hostmask spelling of the mask is not modelled (no snapshot uses
it). -/

def isDigitCh (c : Char) : Bool := 48 ≤ c.toNat ∧ c.toNat ≤ 57

def digitsVal (s : Text) : Nat := s.foldl (fun a c => a * 10 + (c.toNat - 48)) 0

/-- One octet: ASCII digits, at most three, no leading zero, value ≤ 255. -/
def parseOctet (s : Text) : Option Nat :=
  if s = [] then none
  else if ¬ s.all isDigitCh then none
  else if 3 < s.length then none
  else if 1 < s.length ∧ s.head? = some '0' then none
  else if digitsVal s ≤ 255 then some (digitsVal s) else none

def parseIpv4 (s : Text) : Option Nat :=
  match splitCh '.' s with
  | [a, b, c, d] =>
    match parseOctet a, parseOctet b, parseOctet c, parseOctet d with
    | some x, some y, some z, some w =>
      some (x * 16777216 + y * 65536 + z * 256 + w)
    | _, _, _, _ => none
  | _ => none

def parsePlen (s : Text) : Option Nat :=
  if s ≠ [] ∧ s.all isDigitCh then
    if digitsVal s ≤ 32 then some (digitsVal s) else none
  else none

/-- Clear the host bits of an address for a given prefix length. -/
def maskNet (ip plen : Nat) : Nat := ip / 2 ^ (32 - plen) * 2 ^ (32 - plen)

/-- `parse_cidr`: the network address (as a 32-bit natural) and the prefix
length; `none` models the raised `HTTPException`. -/
def parseCidr (cidr : Text) : Option (Nat × Nat) :=
  match splitCh '/' cidr with
  | [a] => (parseIpv4 a).map (fun ip => (maskNet ip 32, 32))
  | [a, m] =>
    match parseIpv4 a, parsePlen m with
    | some ip, some p => some (maskNet ip p, p)
    | _, _ => none
  | _ => none

/-- `get_server_ip`: network address + 1; `none` models the
`AddressValueError` on the (unreachable in practice) 2^32 overflow. -/
def serverIpNat (net : Nat) : Option Nat :=
  if net + 1 < 4294967296 then some (net + 1) else none

/-- `str(IPv4Address(n))`: dotted-quad rendering. -/
def ipToText (n : Nat) : Text :=
  natText (n / 16777216 % 256) ++ ['.'] ++ natText (n / 65536 % 256)
    ++ ['.'] ++ natText (n / 256 % 256) ++ ['.'] ++ natText (n % 256)

end Cidr

section Render
/-! ## Desired-config rendering (`rebuild_interface_config`,
src/wireguard.py:504-557) -/

/-- `'\n'`-terminated flattening of a list of lines: the exact string the
Python code builds by appending `"...\n"` pieces. -/
def unlinesT (ls : List Text) : Text := (ls.map (fun l => l ++ ['\n'])).flatten

/-- The `# Peer IP:` comment value (src/wireguard.py:541-543): first
comma-separated element of the (stripped) allowed-IPs, prefix removed. -/
def peerCommentIp (allowed_ips : Text) : Text :=
  match splitCh ',' allowed_ips with
  | [] => []
  | f0 :: _ =>
    let f := stripT f0
    if f.contains '/' then (splitOnce '/' f).1 else f

/-- The filter of src/wireguard.py:526-531: a peer is rendered iff its
stripped `public_key` and stripped `allowed_ips` are non-empty and it is
enabled. -/
def includedPeer (p : Peer) : Bool :=
  stripT p.public_key ≠ [] ∧ stripT p.allowed_ips ≠ [] ∧ p.is_enabled

/-- The lines of one rendered peer block (comment block, `[Peer]` section,
trailing blank line), src/wireguard.py:533-555. -/
def peerBlockLines (vpn : VpnNetwork) (r : Router) (p : Peer) : List Text :=
  let pk := stripT p.public_key
  let aip := stripT p.allowed_ips
  [ "# ============================================".data,
    "# Router: ".data ++ r.name,
    "# Router ID: ".data ++ r.id,
    "# VPN Network: ".data ++ vpn.name,
    "# VPN Network ID: ".data ++ vpn.id,
    "# Peer IP: ".data ++ peerCommentIp aip,
    "# Public Key: ".data ++ pk,
    "# ============================================".data,
    "[Peer]".data,
    "PublicKey = ".data ++ pk,
    "AllowedIPs = ".data ++ normalizeAllowedIps aip,
    "PersistentKeepalive = 25".data,
    [] ]

/-- All peer-block lines a router contributes to the interface of `vpn`
(src/wireguard.py:517-531): nothing when it belongs to another network. -/
def routerPeerLines (vpn : VpnNetwork) (r : Router) : List Text :=
  if r.vpn_network_id ≠ vpn.id then []
  else (r.peers.map
    (fun p => if includedPeer p then peerBlockLines vpn r p else [])).flatten

/-- The `[Interface]` header lines of the rebuilt config
(src/wireguard.py:505-513). -/
def headerLines (k sip : Text) (plen : Nat) (dns : Text) : List Text :=
  ["[Interface]".data,
   "PrivateKey = ".data ++ k,
   "Address = ".data ++ sip ++ ['/'] ++ natText plen,
   "ListenPort = 51820".data]
  ++ (if dns ≠ [] then ["DNS = ".data ++ dns] else [])
  ++ [[], "# Peers adicionados automaticamente pela API".data, []]

def renderLines (vpn : VpnNetwork) (routers : List Router)
    (k sip : Text) (plen : Nat) : List Text :=
  headerLines k sip plen vpn.dns_servers ++ (routers.map (routerPeerLines vpn)).flatten

/-- The full `new_content` text built by `rebuild_interface_config`. -/
def renderConfig (vpn : VpnNetwork) (routers : List Router)
    (k sip : Text) (plen : Nat) : Text :=
  unlinesT (renderLines vpn routers k sip plen)

/-- The whitespace normalization of src/wireguard.py:559-565: rstrip every
line, rstrip the whole text, append a final newline. -/
def normalizeContent (c : Text) : Text :=
  rstripT (joinCh '\n' ((splitCh '\n' c).map rstripT)) ++ ['\n']

end Render

section Extract
/-! ## `re.search(r'PrivateKey\s*=\s*([^\n]+)', content)`
(src/wireguard.py:492-494), modelled with the backtracking semantics of
the Python `re` engine for this fixed pattern. -/

/-- Match a literal at the head of the text. -/
def dropLit : Text → Text → Option Text
  | [], cs => some cs
  | _ :: _, [] => none
  | a :: l, c :: cs => if c = a then dropLit l cs else none

def notNl (c : Char) : Bool := c ≠ '\n'

/-- Try to start the group `([^\n]+)` at offset `i` of the remainder. -/
def grabTry (r : Text) (i : Nat) : Option Text :=
  match r.drop i with
  | [] => none
  | c :: rest => if c = '\n' then none else some ((c :: rest).takeWhile notNl)

/-- Backtrack the greedy `\s*` before the group from the maximal
whitespace run down to the empty run. -/
def grabAux (r : Text) : Nat → Option Text
  | 0 => grabTry r 0
  | i + 1 =>
    match grabTry r (i + 1) with
    | some g => some g
    | none => grabAux r i

def grabGroup (r : Text) : Option Text := grabAux r (r.takeWhile isWsChar).length

/-- Try the whole pattern anchored at the head of `cs`. -/
def matchKeyAt (cs : Text) : Option Text :=
  match dropLit "PrivateKey".data cs with
  | none => none
  | some r1 =>
    match r1.dropWhile isWsChar with
    | [] => none
    | c :: r3 => if c = '=' then grabGroup r3 else none

/-- `re.search`: scan left to right for the first anchor that matches, and
return the group. -/
def searchKey : Text → Option Text
  | [] => none
  | c :: cs =>
    match matchKeyAt (c :: cs) with
    | some g => some g
    | none => searchKey cs

end Extract

section Effects
/-! ## Effect model: file system and kernel-affecting commands -/

/-- The kernel/disk effects a pass performs, in order.  (`chmod`,
`iptables` and key generation are read-only with respect to the state the
claims speak about and are not traced.) -/
inductive Act where
  | writeFile (path content : Text)
  | removeFile (path : Text)
  | down (iface : Text)
  | up (iface : Text)
  deriving DecidableEq

/-- The config directory contents: an association list `path -> content`. -/
abbrev FileSys := List (Text × Text)

def fsLookup : FileSys → Text → Option Text
  | [], _ => none
  | e :: es, p => if e.1 = p then some e.2 else fsLookup es p

def fsSet : FileSys → Text → Text → FileSys
  | [], p, c => [(p, c)]
  | e :: es, p, c => if e.1 = p then (p, c) :: es else e :: fsSet es p c

def fsRemove (fs : FileSys) (p : Text) : FileSys :=
  fs.filter (fun e => decide (e.1 ≠ p))

/-- The outcomes of the external tools during one pass, as pure oracles:
`active` is the success of `wg show <iface>`, `stripOk` the success of
`wg-quick strip` on a file with the given content, `genKeys` the raw
stdout of `wg genkey` / `wg pubkey` for a network, and `existingIfaces`
the output of `wg show interfaces`. -/
structure SysEnv where
  active : Text → Bool
  stripOk : Text → Bool
  genKeys : Text → Text × Text
  existingIfaces : List Text

def startsWithT : Text → Text → Bool
  | [], _ => true
  | _ :: _, [] => false
  | a :: p, c :: s => c = a && startsWithT p s

end Effects

section Rebuild
/-! ## `rebuild_interface_config` (src/wireguard.py:456-608) -/

/-- The server private key used by `rebuild_interface_config`
(src/wireguard.py:492-494): the regex extraction from the current file,
falling back to the snapshot field. -/
def rebuildKey (vpn : VpnNetwork) (fileContent : Text) : Text :=
  match searchKey fileContent with
  | some g => stripT g
  | none => vpn.server_private_key

/-- The normalized desired text `rebuild_interface_config` would write for
a given extracted key and parsed network address. -/
def desiredContent (vpn : VpnNetwork) (routers : List Router) (key : Text)
    (sipN plen : Nat) : Text :=
  normalizeContent (renderConfig vpn routers key (ipToText sipN) plen)

/-- The pure core of `rebuild_interface_config`, given the current file
content (the file exists): extract the server private key from the file
(falling back to the snapshot), render, normalize, compare, and validate
with `wg-quick strip` before writing.  Result: `Except.error` models a
propagated exception (invalid CIDR), `.ok (updated, newFileContent)` the
Boolean return value together with the file content after the call. -/
def rebuildInterfaceConfig (vpn : VpnNetwork) (routers : List Router)
    (fileContent : Text) (stripOk : Text → Bool) : Except Unit (Bool × Text) :=
  if rebuildKey vpn fileContent = [] then .ok (false, fileContent)
  else
    match parseCidr vpn.cidr with
    | none => .error ()
    | some np =>
      match serverIpNat np.1 with
      | none => .error ()
      | some sipN =>
        if normalizeContent fileContent
            = desiredContent vpn routers (rebuildKey vpn fileContent) sipN np.2
          ∧ stripOk fileContent
        then .ok (false, fileContent)
        else if stripOk (desiredContent vpn routers (rebuildKey vpn fileContent) sipN np.2)
        then .ok (true, desiredContent vpn routers (rebuildKey vpn fileContent) sipN np.2)
        else .ok (false, fileContent)

/-- The `[Interface]` stanza written by `ensure_interface_exists`
(src/wireguard.py:169-178); note the comment line differs from the one
`rebuild_interface_config` renders. -/
def ensureContentLines (priv sip : Text) (plen : Nat) (dns : Text) : List Text :=
  ["[Interface]".data,
   "PrivateKey = ".data ++ priv,
   "Address = ".data ++ sip ++ ['/'] ++ natText plen,
   "ListenPort = 51820".data]
  ++ (if dns ≠ [] then ["DNS = ".data ++ dns] else [])
  ++ [[], "# Peers serão adicionados automaticamente pela API".data]

/-- The server key pair `ensure_interface_exists` uses: generated (and
stripped, src/wireguard.py:28-33) when the snapshot carries no pair. -/
def ensureKeys (env : SysEnv) (vpn : VpnNetwork) : Text × Text :=
  if vpn.server_private_key = [] ∨ vpn.server_public_key = [] then
    (stripT (env.genKeys vpn.id).1, stripT (env.genKeys vpn.id).2)
  else (vpn.server_private_key, vpn.server_public_key)

/-- `ensure_interface_exists` (src/wireguard.py:137-201): early return when
the file exists and the interface is up; otherwise (re)generate keys if the
snapshot carries none, write the header-only config and bring the interface
up when it is down. -/
def ensureInterfaceExists (env : SysEnv) (vpn : VpnNetwork) (fs : FileSys) :
    Except Unit (FileSys × List Act) :=
  if (fsLookup fs (cfgPath (interfaceName vpn.id))).isSome
      ∧ env.active (interfaceName vpn.id) then .ok (fs, [])
  else
    match parseCidr vpn.cidr with
    | none => .error ()
    | some np =>
      match serverIpNat np.1 with
      | none => .error ()
      | some sipN =>
        .ok (fsSet fs (cfgPath (interfaceName vpn.id))
            (unlinesT (ensureContentLines (ensureKeys env vpn).1
              (ipToText sipN) np.2 vpn.dns_servers)),
          Act.writeFile (cfgPath (interfaceName vpn.id))
              (unlinesT (ensureContentLines (ensureKeys env vpn).1
                (ipToText sipN) np.2 vpn.dns_servers)) ::
            (if env.active (interfaceName vpn.id) then []
             else [Act.up (interfaceName vpn.id)]))

/-- The tail of `rebuild_interface_config` as used by the sync pass: on an
updated file the caller performs `wg-quick down` / `wg-quick up`
(src/sync.py:311-317). -/
def rebuildApply (env : SysEnv) (vpn : VpnNetwork) (routers : List Router)
    (fs : FileSys) (content : Text) : Except Unit (FileSys × List Act) :=
  match rebuildInterfaceConfig vpn routers content env.stripOk with
  | .error _ => .error ()
  | .ok (false, _) => .ok (fs, [])
  | .ok (true, nw) =>
    .ok (fsSet fs (cfgPath (interfaceName vpn.id)) nw,
      [Act.writeFile (cfgPath (interfaceName vpn.id)) nw,
       Act.down (interfaceName vpn.id), Act.up (interfaceName vpn.id)])

/-- One iteration of the `for vpn_network in vpn_networks` loop of
`sync_peers_with_routers` (src/sync.py:290-322), including the
missing-file branch of `rebuild_interface_config`
(src/wireguard.py:466-471). -/
def syncPeerStep (env : SysEnv) (routers : List Router) (vpn : VpnNetwork)
    (fs : FileSys) : Except Unit (FileSys × List Act) :=
  match fsLookup fs (cfgPath (interfaceName vpn.id)) with
  | some content => rebuildApply env vpn routers fs content
  | none =>
    match ensureInterfaceExists env vpn fs with
    | .error _ => .error ()
    | .ok (fs1, a1) =>
      match fsLookup fs1 (cfgPath (interfaceName vpn.id)) with
      | none => .ok (fs1, a1)
      | some content =>
        match rebuildApply env vpn routers fs1 content with
        | .error _ => .error ()
        | .ok (fs2, a2) => .ok (fs2, a1 ++ a2)

/-- The loop of `sync_peers_with_routers`: sequential processing; an
exception aborts the remainder of the loop (it is caught at function
level), and a network whose interface is not up is skipped. -/
def syncPeersGo (env : SysEnv) (routers : List Router) :
    List VpnNetwork → FileSys → FileSys × List Act × Bool
  | [], fs => (fs, [], false)
  | v :: vs, fs =>
    if env.active (interfaceName v.id) then
      match syncPeerStep env routers v fs with
      | .error _ => (fs, [], true)
      | .ok (fs1, a) =>
        let r := syncPeersGo env routers vs fs1
        (r.1, a ++ r.2.1, r.2.2)
    else syncPeersGo env routers vs fs

/-- `sync_peers_with_routers` (src/sync.py:265-337): early return when no
managed interface is up, otherwise the rebuild loop.  (The peer-cache
refresh `sync_from_api_data` touches only the in-memory cache and is
modelled separately.) -/
def syncPeersWithRouters (env : SysEnv) (routers : List Router)
    (vpns : List VpnNetwork) (fs : FileSys) : FileSys × List Act :=
  if vpns.all (fun v => !(env.active (interfaceName v.id))) then (fs, [])
  else
    let r := syncPeersGo env routers vpns fs
    (r.1, r.2.1)

end Rebuild

section SyncInterfaces
/-! ## `sync_interfaces_with_vpns`, `cleanup_all_interfaces`
(src/sync.py:123-236, 389-419) -/

/-- `iface.replace("wg-", "")`: remove every occurrence of `wg-`. -/
def stripWgAll : Text → Text
  | 'w' :: 'g' :: '-' :: rest => stripWgAll rest
  | c :: cs => c :: stripWgAll cs
  | [] => []

/-- The 8-character short id of a network (`id.replace("-","")[:8]`). -/
def vpnShort (v : VpnNetwork) : Text := (v.id.filter (fun c => c ≠ '-')).take 8

/-- `cleanup_all_interfaces` (src/sync.py:389-419): bring every `wg-*`
interface down and delete its config file when present. -/
def cleanupGo : List Text → FileSys → FileSys × List Act
  | [], fs => (fs, [])
  | i :: is, fs =>
    if startsWithT "wg-".data i then
      let path := cfgPath i
      let acts := Act.down i ::
        (if (fsLookup fs path).isSome then [Act.removeFile path] else [])
      let r := cleanupGo is (fsRemove fs path)
      (r.1, acts ++ r.2)
    else cleanupGo is fs

def cleanupAllInterfaces (env : SysEnv) (fs : FileSys) : FileSys × List Act :=
  if env.existingIfaces = [] then (fs, [])
  else cleanupGo env.existingIfaces fs

/-- Python-dict insert (overwrite in place, append otherwise). -/
def assocSet : List (Text × Text) → Text → Text → List (Text × Text)
  | [], k, v => [(k, v)]
  | e :: es, k, v => if e.1 = k then (k, v) :: es else e :: assocSet es k v

/-- `existing_vpn_to_interface` (src/sync.py:140-156). -/
def buildVpnIfaceMap (vpns : List VpnNetwork) :
    List Text → List (Text × Text) → List (Text × Text)
  | [], m => m
  | iface :: rest, m =>
    if startsWithT "wg-".data iface then
      match vpns.find? (fun v => decide (vpnShort v = stripWgAll iface)) with
      | some v => buildVpnIfaceMap vpns rest (assocSet m v.id iface)
      | none => buildVpnIfaceMap vpns rest m
    else buildVpnIfaceMap vpns rest m

/-- `remove_interface` (src/wireguard.py:638-651). -/
def removeInterface (vpnId : Text) (fs : FileSys) : FileSys × List Act :=
  let iface := interfaceName vpnId
  let path := cfgPath iface
  (fsRemove fs path,
   Act.down iface ::
     (if (fsLookup fs path).isSome then [Act.removeFile path] else []))

/-- `sync_interfaces_with_vpns` (src/sync.py:123-236): the full
remove / orphan-remove / create diff.  Per-creation exceptions are caught
and skipped (src/sync.py:217-222). -/
def syncInterfacesWithVpns (env : SysEnv) (vpns : List VpnNetwork)
    (fs : FileSys) : FileSys × List Act :=
  if vpns = [] then cleanupAllInterfaces env fs
  else
    let m := buildVpnIfaceMap vpns env.existingIfaces []
    let toRemove := m.filter (fun e => !(vpns.any (fun v => decide (v.id = e.1))))
    let s1 := toRemove.foldl
      (fun acc e =>
        let r := removeInterface e.1 acc.1
        (r.1, acc.2 ++ r.2)) (fs, ([] : List Act))
    let orphans := env.existingIfaces.filter
      (fun i => startsWithT "wg-".data i &&
        !(vpns.any (fun v => decide (vpnShort v = stripWgAll i))))
    let s2 := orphans.foldl
      (fun acc i =>
        let path := cfgPath i
        (fsRemove acc.1 path,
         acc.2 ++ (Act.down i ::
           (if (fsLookup acc.1 path).isSome then [Act.removeFile path] else []))))
      (s1.1, ([] : List Act))
    let toCreate := vpns.filter (fun v => (m.find? (fun e => decide (e.1 = v.id))).isNone)
    let s3 := toCreate.foldl
      (fun acc v =>
        match ensureInterfaceExists env v acc.1 with
        | .error _ => acc
        | .ok (f, a) => (f, acc.2 ++ a)) (s2.1, ([] : List Act))
    (s3.1, s1.2 ++ s2.2 ++ s3.2)

end SyncInterfaces

section SyncResources
/-! ## `sync_resources_from_api` (src/sync.py:23-92) -/

/-- The outcome of the snapshot fetch: an HTTP response with a status code
(the body is consulted only on 200), or one of the caught transport-level
exceptions. -/
inductive FetchOutcome where
  | response (status : Nat) (vpns : List VpnNetwork) (routers : List Router)
  | timeoutErr
  | connectErr
  | otherExc
  deriving DecidableEq

/-- `sync_resources_from_api`: returns the managed state after the pass
together with the file system and the effect trace. -/
def syncResourcesFromApi (endpointConfigured : Bool) (fetch : FetchOutcome)
    (st : ManagedState) (env : SysEnv) (fs : FileSys) (now : Text) :
    ManagedState × FileSys × List Act :=
  if !endpointConfigured then (st, fs, [])
  else
    match fetch with
    | .timeoutErr => (st, fs, [])
    | .connectErr => (st, fs, [])
    | .otherExc => (st, fs, [])
    | .response status vpns routers =>
      if status = 404 then
        let r := cleanupAllInterfaces env fs
        ({ vpn_networks := [], routers := [], last_sync := some now }, r.1, r.2)
      else if status ≠ 200 then (st, fs, [])
      else
        let r1 := syncInterfacesWithVpns env vpns fs
        let r2 := syncPeersWithRouters env routers vpns r1.1
        ({ vpn_networks := vpns, routers := routers, last_sync := some now },
         r2.1, r1.2 ++ r2.2)

end SyncResources

section Monitor
/-! ## `monitor_router` (src/monitor.py:204-339) -/

/-- One parsed peer of `get_wireguard_status` as the monitor consumes it:
its public key and the status classified per src/status.py. -/
structure WgPeerStats where
  public_key : Text
  status : String
  deriving DecidableEq

structure WgInterfaceView where
  name : Text
  peers : List WgPeerStats
  deriving DecidableEq

/-- The peer search of src/monitor.py:243-250: first interface, first
matching peer, with `break` on the first hit. -/
def findPeerStats : List WgInterfaceView → Text → Option WgPeerStats
  | [], _ => none
  | i :: rest, pk =>
    match i.peers.find? (fun p => decide (p.public_key = pk)) with
    | some p => some p
    | none => findPeerStats rest pk

/-- src/monitor.py:217-221: the first enabled peer of the router. -/
def firstEnabledPeer (peers : List Peer) : Option Peer :=
  peers.find? (fun p => p.is_enabled)

/-- `get_router_ip_from_peer` (src/monitor.py:160-173). -/
def routerIpFromPeer (p : Peer) : Option Text :=
  let aips := stripT p.allowed_ips
  if aips = [] then none
  else
    match splitCh ',' aips with
    | [] => none
    | f :: _ =>
      let f1 := stripT f
      if f1.contains '/' then some (stripT (splitOnce '/' f1).1) else some f1

/-- The router online/offline decision of src/monitor.py:259-272: `none`
when monitoring is skipped (no peers, no enabled peer, or no usable IP);
otherwise WireGuard runtime truth when the peer is in the dump, ICMP truth
when it is not. -/
def routerOnlineDecision (r : Router) (wg : List WgInterfaceView)
    (pingSuccess : Bool) : Option Bool :=
  match firstEnabledPeer r.peers with
  | none => none
  | some ap =>
    match routerIpFromPeer ap with
    | none => none
    | some ip =>
      if ip = [] then none
      else
        some (match findPeerStats wg ap.public_key with
          | some st => st.status = "online"
          | none => pingSuccess)

inductive RouterField where
  | statusField (v : Nat)
  | lastSeenAt (iso : Text)
  | latency (ms : Int)
  deriving DecidableEq

/-- The `router_update_data` payload construction of
src/monitor.py:298-312.  src/monitor.py imports only `datetime` from the
`datetime` module (line 10), so the expression `timezone.utc` on line 308
raises `NameError` whenever `router_is_online` is true; the `PUT` that
would carry the payload is never reached in that case. -/
def monitorRouterUpdateData (router_is_online : Bool) (avg_time_ms : Option ℚ) :
    Except String (List RouterField) :=
  let base := [RouterField.statusField (if router_is_online then 1 else 2)]
  if router_is_online then
    .error "NameError: name 'timezone' is not defined"
  else
    let _ := avg_time_ms
    .ok base

end Monitor


section VerifHelpers
/-! ## Definitions used only to state and prove the claims -/

/-- Drop the trailing blank lines of a line list. -/
def dtbLines (ls : List Text) : List Text :=
  ls.rdropWhile (fun l => decide (l = []))

/-- A server private key in the form the on-disk round trip reproduces
exactly: non-empty, newline-free, with non-whitespace first and last
characters (equivalently, a non-empty newline-free fixed point of
`str.strip`). -/
def cleanKey (k : Text) : Prop :=
  k ≠ [] ∧ '\n' ∉ k ∧ isWsChar k.headI = false ∧ isWsChar k.getLastI = false

instance (k : Text) : Decidable (cleanKey k) := by
  unfold cleanKey; infer_instance

/-- The snapshot key hypothesis of the amended idempotence claim: the key
is either absent (empty) or clean. -/
def cleanOrEmptyKey (v : VpnNetwork) : Prop :=
  v.server_private_key = [] ∨ cleanKey v.server_private_key

instance (v : VpnNetwork) : Decidable (cleanOrEmptyKey v) := by
  unfold cleanOrEmptyKey; infer_instance

/-- Concrete oracle: every interface up, `wg-quick strip` always succeeds. -/
def envAllOk : SysEnv :=
  { active := fun _ => true
    stripOk := fun _ => true
    genKeys := fun _ => ("GENPRIV".data, "GENPUB".data)
    existingIfaces := ["wg-aaaaaaaa".data] }

/-- Counterexample snapshot for the idempotence claim: the server private
key carries a leading space, and the on-disk file has no `PrivateKey` line
(it is empty), so the second pass re-extracts a different key. -/
def vpnC1x : VpnNetwork :=
  { id := "aaaaaaaa".data, name := "N".data, cidr := "10.0.0.0/24".data
    dns_servers := [], server_private_key := " K".data
    server_public_key := "P".data }

def fsC1x : FileSys := [(cfgPath (interfaceName vpnC1x.id), [])]

/-- Witness snapshot: a clean server private key. -/
def vpnC1w : VpnNetwork :=
  { id := "aaaaaaaa".data, name := "N".data, cidr := "10.0.0.0/24".data
    dns_servers := [], server_private_key := "K".data
    server_public_key := "P".data }

/-- Observer over a rendered config's lines: the `(router id, public key)`
pairs in the order their `# Router ID: ` / `# Public Key: ` comment lines
appear; each public-key line is attributed to the most recent router-id
line. -/
def scanPairsGo : List Text → Option Text → List (Text × Text)
  | [], _ => []
  | l :: ls, cur =>
    if startsWithT "# Router ID: ".data l then
      scanPairsGo ls (some (l.drop 13))
    else if startsWithT "# Public Key: ".data l then
      match cur with
      | some rid => (rid, l.drop 14) :: scanPairsGo ls cur
      | none => scanPairsGo ls cur
    else scanPairsGo ls cur

/-- The `(router id, public key)` pairs readable back from a rendered
config text, in order of appearance. -/
def scanPairs (c : Text) : List (Text × Text) :=
  scanPairsGo (splitCh '\n' c) none

/-- Spec-modelled (claim C9's words, not the code): byte-wise lexicographic
order on texts. -/
def textLe : Text → Text → Bool
  | [], _ => true
  | _ :: _, [] => false
  | a :: as, b :: bs =>
    if a < b then true
    else if b < a then false
    else textLe as bs

/-- Spec-modelled: lexicographic order on `(router_id, public_key)` pairs. -/
def pairLe (x y : Text × Text) : Bool :=
  if x.1 = y.1 then textLe x.2 y.2 else textLe x.1 y.1

/-- Spec-modelled: the pair list is sorted by `(router_id, public_key)`. -/
def sortedPairs : List (Text × Text) → Bool
  | [] => true
  | [_] => true
  | x :: y :: rest => pairLe x y && sortedPairs (y :: rest)

/-- C9 counterexample snapshot: two routers listed in descending id order,
each contributing one rendered peer. -/
def routerC9b : Router :=
  { id := "bb".data, name := "RB".data, vpn_network_id := "aaaaaaaa".data
    peers := [{ id := "pb".data, public_key := "KB".data,
                allowed_ips := "10.0.0.2/32".data, is_enabled := true }] }

def routerC9a : Router :=
  { id := "aa".data, name := "RA".data, vpn_network_id := "aaaaaaaa".data
    peers := [{ id := "pa".data, public_key := "KA".data,
                allowed_ips := "10.0.0.3/32".data, is_enabled := true }] }

end VerifHelpers

section TextLemmas
/-! ## Lemmas about the text primitives -/

theorem rstripT_nil : rstripT [] = [] := rfl

theorem rstripT_concat_pos (s : Text) (c : Char) (h : isWsChar c) :
    rstripT (s ++ [c]) = rstripT s :=
  List.rdropWhile_concat_pos _ _ _ h

theorem rstripT_concat_neg (s : Text) (c : Char) (h : ¬ isWsChar c) :
    rstripT (s ++ [c]) = s ++ [c] :=
  List.rdropWhile_concat_neg _ _ _ h

theorem rstripT_idem (s : Text) : rstripT (rstripT s) = rstripT s :=
  List.rdropWhile_idempotent _ _

theorem rstripT_eq_self_iff {s : Text} :
    rstripT s = s ↔ ∀ h : s ≠ [], ¬ isWsChar (s.getLast h) :=
  List.rdropWhile_eq_self_iff

/-- A non-empty rstrip-fixed text ends with a non-whitespace character. -/
theorem rstripT_fixed_decomp {s : Text} (hf : rstripT s = s) (hne : s ≠ []) :
    ∃ t c, s = t ++ [c] ∧ ¬ isWsChar c := by
  rcases List.eq_nil_or_concat' s with rfl | ⟨t, c, rfl⟩
  · exact absurd rfl hne
  · exact ⟨t, c, rfl, by
      have := rstripT_eq_self_iff.mp hf (by simp)
      simpa [List.getLast_append] using this⟩

theorem rstripT_append_of_nonws {t : Text} (s : Text)
    (h : ∃ c ∈ t, ¬ isWsChar c) : rstripT (s ++ t) = s ++ rstripT t := by
  unfold rstripT List.rdropWhile
  rw [List.reverse_append, List.dropWhile_append]
  have hne : t.reverse.dropWhile isWsChar ≠ [] := by
    intro hnil
    rw [List.dropWhile_eq_nil_iff] at hnil
    obtain ⟨c, hc, hcw⟩ := h
    exact hcw (hnil c (by simpa using hc))
  rw [if_neg (by simpa [List.isEmpty_iff] using hne)]
  simp

theorem rstripT_append_nl (s : Text) : rstripT (s ++ ['\n']) = rstripT s :=
  rstripT_concat_pos s '\n' (by decide)

theorem mem_of_mem_rstripT {c : Char} {s : Text} (h : c ∈ rstripT s) : c ∈ s :=
  (List.rdropWhile_prefix _ _).subset h

theorem rstripT_append_rtakeWhile (s : Text) :
    rstripT s ++ List.rtakeWhile isWsChar s = s := by
  unfold rstripT List.rdropWhile List.rtakeWhile
  rw [← List.reverse_append, List.takeWhile_append_dropWhile, List.reverse_reverse]

theorem mem_rstripT_of_nonws {c : Char} {s : Text} (hc : c ∈ s)
    (hw : ¬ isWsChar c) : c ∈ rstripT s := by
  rw [← rstripT_append_rtakeWhile s] at hc
  rcases List.mem_append.mp hc with h1 | h2
  · exact h1
  · exact absurd (List.mem_rtakeWhile_imp h2) hw

theorem splitCh_ne_nil (sep : Char) (s : Text) : splitCh sep s ≠ [] := by
  induction s with
  | nil => simp [splitCh]
  | cons c cs ih =>
    simp only [splitCh]
    split
    · simp
    · split
      · simp
      · simp

theorem splitCh_cons_sep (sep : Char) (cs : Text) :
    splitCh sep (sep :: cs) = [] :: splitCh sep cs := by
  simp [splitCh]

theorem splitCh_cons_ne (sep c : Char) (cs : Text) (h : c ≠ sep)
    {l : Text} {ls : List Text} (hls : splitCh sep cs = l :: ls) :
    splitCh sep (c :: cs) = (c :: l) :: ls := by
  simp only [splitCh, if_neg h, hls]

/-- Splitting a text whose head part is separator-free. -/
theorem splitCh_append (sep : Char) (a b : Text) (h : sep ∉ a) :
    splitCh sep (a ++ sep :: b) = a :: splitCh sep b := by
  induction a with
  | nil => simp [splitCh_cons_sep]
  | cons c cs ih =>
    have hc : c ≠ sep := by intro hc; exact h (hc ▸ List.mem_cons_self c cs)
    have hcs : sep ∉ cs := fun hm => h (List.mem_cons_of_mem c hm)
    rw [List.cons_append, splitCh_cons_ne sep c _ hc (ih hcs)]

theorem splitCh_no_sep (sep : Char) (a : Text) (h : sep ∉ a) :
    splitCh sep a = [a] := by
  induction a with
  | nil => rfl
  | cons c cs ih =>
    have hc : c ≠ sep := by intro hc; exact h (hc ▸ List.mem_cons_self c cs)
    have hcs : sep ∉ cs := fun hm => h (List.mem_cons_of_mem c hm)
    rw [splitCh_cons_ne sep c cs hc (ih hcs)]

theorem mem_splitCh_not_sep {sep : Char} {s : Text} {l : Text}
    (h : l ∈ splitCh sep s) : sep ∉ l := by
  induction s generalizing l with
  | nil =>
    simp only [splitCh, List.mem_singleton] at h
    simp [h]
  | cons c cs ih =>
    by_cases hc : c = sep
    · subst hc
      rw [splitCh_cons_sep] at h
      rcases List.mem_cons.mp h with h1 | h2
      · simp [h1]
      · exact ih h2
    · obtain ⟨m, ms, hms⟩ := List.exists_cons_of_ne_nil (splitCh_ne_nil sep cs)
      rw [splitCh_cons_ne sep c cs hc hms] at h
      rcases List.mem_cons.mp h with h1 | h2
      · subst h1
        intro hmem
        rcases List.mem_cons.mp hmem with h3 | h4
        · exact hc h3.symm
        · exact ih (hms ▸ List.mem_cons_self m ms) h4
      · exact ih (hms ▸ List.mem_cons_of_mem m h2)

theorem joinCh_cons_cons (sep : Char) (a b : Text) (ls : List Text) :
    joinCh sep (a :: b :: ls) = a ++ sep :: joinCh sep (b :: ls) := by
  simp [joinCh]

theorem joinCh_cons_of_ne_nil (sep : Char) (a : Text) {ls : List Text}
    (h : ls ≠ []) : joinCh sep (a :: ls) = a ++ sep :: joinCh sep ls := by
  obtain ⟨b, t, rfl⟩ := List.exists_cons_of_ne_nil h
  exact joinCh_cons_cons sep a b t

theorem joinCh_splitCh (sep : Char) (s : Text) :
    joinCh sep (splitCh sep s) = s := by
  induction s with
  | nil => rfl
  | cons c cs ih =>
    by_cases hc : c = sep
    · subst hc
      rw [splitCh_cons_sep, joinCh_cons_of_ne_nil c _ (splitCh_ne_nil c cs), ih]
      simp
    · obtain ⟨m, ms, hms⟩ := List.exists_cons_of_ne_nil (splitCh_ne_nil sep cs)
      rw [splitCh_cons_ne sep c cs hc hms]
      rw [hms] at ih
      cases ms with
      | nil => simpa [joinCh] using ih
      | cons x xs =>
        rw [joinCh_cons_cons] at ih ⊢
        simpa using ih

theorem splitCh_joinCh (sep : Char) (ls : List Text)
    (h : ∀ l ∈ ls, sep ∉ l) (hne : ls ≠ []) :
    splitCh sep (joinCh sep ls) = ls := by
  induction ls with
  | nil => exact absurd rfl hne
  | cons a t ih =>
    cases t with
    | nil =>
      simpa [joinCh] using splitCh_no_sep sep a (h a (by simp))
    | cons b u =>
      rw [joinCh_cons_cons, splitCh_append sep a _ (h a (by simp)),
        ih (fun l hl => h l (List.mem_cons_of_mem a hl)) (by simp)]

theorem mem_joinCh_of_mem {sep : Char} {l : Text} {ls : List Text} {c : Char}
    (hl : l ∈ ls) (hc : c ∈ l) : c ∈ joinCh sep ls := by
  induction ls with
  | nil => simp at hl
  | cons a t ih =>
    cases t with
    | nil =>
      rcases List.mem_singleton.mp hl with rfl
      simpa [joinCh] using hc
    | cons b u =>
      rw [joinCh_cons_cons]
      rcases List.mem_cons.mp hl with rfl | h2
      · exact List.mem_append.mpr (Or.inl hc)
      · exact List.mem_append.mpr (Or.inr (List.mem_cons_of_mem _ (ih h2)))

theorem eq_or_mem_of_mem_joinCh {sep : Char} {ls : List Text} {c : Char}
    (h : c ∈ joinCh sep ls) : c = sep ∨ ∃ l ∈ ls, c ∈ l := by
  induction ls with
  | nil => simp [joinCh] at h
  | cons a t ih =>
    cases t with
    | nil =>
      simp only [joinCh] at h
      exact Or.inr ⟨a, by simp, h⟩
    | cons b u =>
      rw [joinCh_cons_cons] at h
      rcases List.mem_append.mp h with h1 | h2
      · exact Or.inr ⟨a, by simp, h1⟩
      · rcases List.mem_cons.mp h2 with rfl | h3
        · exact Or.inl rfl
        · rcases ih h3 with h4 | ⟨l, hl, hcl⟩
          · exact Or.inl h4
          · exact Or.inr ⟨l, List.mem_cons_of_mem a hl, hcl⟩

end TextLemmas

section NormalizeLemmas
/-! ## Lemmas about `unlinesT` and `normalizeContent` -/

theorem unlinesT_nil : unlinesT [] = [] := rfl

theorem unlinesT_cons (l : Text) (ls : List Text) :
    unlinesT (l :: ls) = l ++ '\n' :: unlinesT ls := by
  simp [unlinesT]

theorem unlinesT_append (a b : List Text) :
    unlinesT (a ++ b) = unlinesT a ++ unlinesT b := by
  simp [unlinesT]

theorem splitNl_unlinesT (ls : List Text) (h : ∀ l ∈ ls, '\n' ∉ l) :
    splitCh '\n' (unlinesT ls) = ls ++ [[]] := by
  induction ls with
  | nil => rfl
  | cons l t ih =>
    rw [unlinesT_cons, splitCh_append '\n' l _ (h l (by simp)),
      ih (fun x hx => h x (List.mem_cons_of_mem l hx))]
    rfl

theorem unlinesT_eq_joinCh {ms : List Text} (h : ms ≠ []) :
    unlinesT ms = joinCh '\n' ms ++ ['\n'] := by
  induction ms with
  | nil => exact absurd rfl h
  | cons a t ih =>
    cases t with
    | nil => simp [unlinesT, joinCh]
    | cons b u =>
      rw [unlinesT_cons, ih (by simp), joinCh_cons_cons]
      simp

theorem mem_dtbLines {ls : List Text} {l : Text} (h : l ∈ dtbLines ls) :
    l ∈ ls :=
  (List.rdropWhile_prefix _ _).subset h

theorem dtbLines_concat_blank (ls : List Text) :
    dtbLines (ls ++ [[]]) = dtbLines ls :=
  List.rdropWhile_concat_pos _ _ _ (by simp)

theorem dtbLines_concat_ne (ls : List Text) {l : Text} (h : l ≠ []) :
    dtbLines (ls ++ [l]) = ls ++ [l] :=
  List.rdropWhile_concat_neg _ _ _ (by simpa using h)

theorem dtbLines_eq_self {ls : List Text}
    (h : ∀ hne : ls ≠ [], ls.getLast hne ≠ []) : dtbLines ls = ls :=
  List.rdropWhile_eq_self_iff.mpr (fun hne => by simpa using h hne)

theorem dtbLines_last_ne {ls : List Text} (h : dtbLines ls ≠ []) :
    (dtbLines ls).getLast h ≠ [] := by
  have := List.rdropWhile_last_not (fun l => decide (l = [])) ls h
  simpa [dtbLines] using this

/-- On lines that are individually rstrip-fixed, the global rstrip exactly
removes trailing blank lines. -/
theorem rstripT_joinNl (ls : List Text) (h : ∀ l ∈ ls, rstripT l = l) :
    rstripT (joinCh '\n' ls) = joinCh '\n' (dtbLines ls) := by
  induction ls using List.reverseRecOn with
  | nil => rfl
  | append_singleton ms l ih =>
    by_cases hms : ms = []
    · subst hms
      simp only [List.nil_append, joinCh]
      by_cases hl : l = []
      · subst hl
        simp [dtbLines, List.rdropWhile, List.dropWhile, rstripT_nil, joinCh]
      · rw [show dtbLines [l] = [l] from dtbLines_concat_ne [] hl]
        exact h l (by simp)
    · rw [joinCh_append_singleton_aux ms l hms]
      by_cases hl : l = []
      · subst hl
        rw [show joinCh '\n' ms ++ '\n' :: ([] : Text) = joinCh '\n' ms ++ ['\n'] by simp,
          rstripT_append_nl, dtbLines_concat_blank,
          ih (fun x hx => h x (List.mem_append_left _ hx))]
      · obtain ⟨t, c, rfl, hc⟩ :=
          rstripT_fixed_decomp (h l (List.mem_append_right _ (by simp))) hl
        rw [dtbLines_concat_ne ms hl, joinCh_append_singleton_aux ms _ hms]
        have : joinCh '\n' ms ++ '\n' :: (t ++ [c])
            = (joinCh '\n' ms ++ '\n' :: t) ++ [c] := by simp
        rw [this, rstripT_concat_neg _ _ hc]
where
  joinCh_append_singleton_aux (ms : List Text) (l : Text) (hms : ms ≠ []) :
      joinCh '\n' (ms ++ [l]) = joinCh '\n' ms ++ '\n' :: l := by
    induction ms with
    | nil => exact absurd rfl hms
    | cons a t ih2 =>
      cases t with
      | nil => simp [joinCh]
      | cons b u =>
        rw [List.cons_append,
          joinCh_cons_of_ne_nil '\n' a (show (b :: u) ++ [l] ≠ [] by simp),
          ih2 (by simp), joinCh_cons_cons]
        simp

/-- Canonical form of the whitespace normalization. -/
theorem normalizeContent_eq (c : Text) :
    normalizeContent c
      = joinCh '\n' (dtbLines ((splitCh '\n' c).map rstripT)) ++ ['\n'] := by
  unfold normalizeContent
  rw [rstripT_joinNl _ (by
    intro l hl
    obtain ⟨x, _, rfl⟩ := List.mem_map.mp hl
    exact rstripT_idem x)]

theorem noNl_rstripT {s : Text} (h : '\n' ∉ s) : '\n' ∉ rstripT s :=
  fun hmem => h (mem_of_mem_rstripT hmem)

theorem normalizeContent_idem (c : Text) :
    normalizeContent (normalizeContent c) = normalizeContent c := by
  set ms := dtbLines ((splitCh '\n' c).map rstripT) with hms
  have f1 : ∀ l ∈ ms, rstripT l = l := by
    intro l hl
    obtain ⟨x, _, rfl⟩ := List.mem_map.mp (mem_dtbLines hl)
    exact rstripT_idem x
  have f2 : ∀ l ∈ ms, '\n' ∉ l := by
    intro l hl
    obtain ⟨x, hx, rfl⟩ := List.mem_map.mp (mem_dtbLines hl)
    exact noNl_rstripT (mem_splitCh_not_sep hx)
  rw [normalizeContent_eq c, ← hms]
  by_cases hne : ms = []
  · rw [hne]
    simp only [joinCh, List.nil_append]
    decide
  · rw [← unlinesT_eq_joinCh hne, normalizeContent_eq,
      splitNl_unlinesT ms f2]
    have hmapms : ms.map rstripT = ms := by
      have h1 : ms.map rstripT = ms.map id := List.map_congr_left f1
      simpa using h1
    have hmap : (ms ++ [[]]).map rstripT = ms ++ [[]] := by
      rw [List.map_append, hmapms]
      rfl
    have hlast : ∀ h : ms ≠ [], ms.getLast h ≠ [] := by
      intro h
      have := @dtbLines_last_ne ((splitCh '\n' c).map rstripT)
      rw [← hms] at this
      exact this h
    rw [hmap, dtbLines_concat_blank, dtbLines_eq_self hlast,
      unlinesT_eq_joinCh hne]

/-- Peeling one clean line off the front of the normalization. -/
theorem normalizeContent_cons_line (l r : Text) (hnl : '\n' ∉ l)
    (hrf : rstripT l = l) (hr : ∃ ch ∈ r, ¬ isWsChar ch) :
    normalizeContent (l ++ '\n' :: r) = l ++ '\n' :: normalizeContent r := by
  unfold normalizeContent
  rw [splitCh_append '\n' l _ hnl]
  have hMne : (splitCh '\n' r).map rstripT ≠ [] := by
    simpa using splitCh_ne_nil '\n' r
  rw [List.map_cons, hrf, joinCh_cons_of_ne_nil '\n' l hMne]
  have hch : ∃ ch ∈ joinCh '\n' ((splitCh '\n' r).map rstripT), ¬ isWsChar ch := by
    obtain ⟨ch, hch, hw⟩ := hr
    have hch' : ch ∈ joinCh '\n' (splitCh '\n' r) := by
      rw [joinCh_splitCh]; exact hch
    rcases eq_or_mem_of_mem_joinCh hch' with rfl | ⟨x, hx, hcx⟩
    · exact absurd (by decide) hw
    · exact ⟨ch, mem_joinCh_of_mem (List.mem_map_of_mem rstripT hx)
        (mem_rstripT_of_nonws hcx hw), hw⟩
  have : l ++ '\n' :: joinCh '\n' ((splitCh '\n' r).map rstripT)
      = (l ++ ['\n']) ++ joinCh '\n' ((splitCh '\n' r).map rstripT) := by simp
  rw [this, rstripT_append_of_nonws (l ++ ['\n']) hch]
  simp

end NormalizeLemmas

section ExtractLemmas
/-! ## Lemmas about the `PrivateKey` regex extraction -/

theorem dropLit_self_append (a b : Text) : dropLit a (a ++ b) = some b := by
  induction a with
  | nil => rfl
  | cons c cs ih => simp [dropLit, ih]

theorem searchKey_cons_of_match {c : Char} {cs : Text} {g : Text}
    (h : matchKeyAt (c :: cs) = some g) : searchKey (c :: cs) = some g := by
  simp [searchKey, h]

theorem searchKey_cons_of_none {c : Char} {cs : Text}
    (h : matchKeyAt (c :: cs) = none) : searchKey (c :: cs) = searchKey cs := by
  simp [searchKey, h]

theorem searchKey_append_no_P (a b : Text) (h : ∀ c ∈ a, c ≠ 'P') :
    searchKey (a ++ b) = searchKey b := by
  induction a with
  | nil => rfl
  | cons c cs ih =>
    have hc : c ≠ 'P' := h c (by simp)
    have hm : matchKeyAt (c :: (cs ++ b)) = none := by
      unfold matchKeyAt
      have hPK : "PrivateKey".data = 'P' :: "rivateKey".data := by decide
      rw [hPK]
      simp [dropLit, hc]
    rw [List.cons_append, searchKey_cons_of_none hm]
    exact ih (fun x hx => h x (List.mem_cons_of_mem c hx))

theorem takeWhile_notNl_append (k rest : Text) (h : '\n' ∉ k) :
    (k ++ '\n' :: rest).takeWhile notNl = k := by
  induction k with
  | nil => simp [notNl]
  | cons c cs ih =>
    have hc : c ≠ '\n' := fun hcc => h (hcc ▸ List.mem_cons_self c cs)
    rw [List.cons_append, List.takeWhile_cons_of_pos (by simp [notNl, hc]),
      ih (fun hm => h (List.mem_cons_of_mem c hm))]

theorem matchKeyAt_key (kh : Char) (kt rest : Text) (hw : ¬ isWsChar kh)
    (hn : '\n' ∉ (kh :: kt)) :
    matchKeyAt ("PrivateKey = ".data ++ ((kh :: kt) ++ '\n' :: rest))
      = some (kh :: kt) := by
  have hsplit : "PrivateKey = ".data
      = "PrivateKey".data ++ [' ', '=', ' '] := by decide
  rw [hsplit, List.append_assoc]
  have h1 : ([' ', '=', ' '] ++ ((kh :: kt) ++ '\n' :: rest)).dropWhile isWsChar
      = '=' :: (' ' :: ((kh :: kt) ++ '\n' :: rest)) := by
    show ((' ' :: '=' :: ' ' :: ((kh :: kt) ++ '\n' :: rest)) : Text).dropWhile isWsChar = _
    rw [List.dropWhile_cons_of_pos (by decide), List.dropWhile_cons_of_neg (by decide)]
  have h2 : ((' ' :: ((kh :: kt) ++ '\n' :: rest)) : Text).takeWhile isWsChar
      = [' '] := by
    rw [List.takeWhile_cons_of_pos (by decide), List.cons_append,
      List.takeWhile_cons_of_neg (by simpa using hw)]
  have h3 : grabTry (' ' :: ((kh :: kt) ++ '\n' :: rest)) 1 = some (kh :: kt) := by
    unfold grabTry
    have hd : ((' ' :: ((kh :: kt) ++ '\n' :: rest)) : Text).drop 1
        = kh :: (kt ++ '\n' :: rest) := by
      simp
    rw [hd]
    have hkh : kh ≠ '\n' := fun h => hn (h ▸ List.mem_cons_self kh kt)
    show (if kh = '\n' then none
      else some ((kh :: (kt ++ '\n' :: rest)).takeWhile notNl)) = _
    rw [if_neg hkh, ← List.cons_append, takeWhile_notNl_append _ _ hn]
  unfold matchKeyAt
  rw [dropLit_self_append]
  simp only [h1, if_pos rfl]
  unfold grabGroup
  rw [h2]
  show grabAux _ 1 = _
  unfold grabAux
  rw [h3]

theorem searchKey_shape (k rest : Text) (hk : k ≠ [])
    (hw : isWsChar k.headI = false) (hn : '\n' ∉ k) :
    searchKey ("[Interface]\nPrivateKey = ".data ++ (k ++ '\n' :: rest))
      = some k := by
  obtain ⟨kh, kt, rfl⟩ := List.exists_cons_of_ne_nil hk
  have hsplit : "[Interface]\nPrivateKey = ".data
      = "[Interface]\n".data ++ "PrivateKey = ".data := by decide
  rw [hsplit, List.append_assoc,
    searchKey_append_no_P "[Interface]\n".data _ (by decide)]
  have hw' : ¬ isWsChar kh := by simpa [List.headI] using hw
  have hm := matchKeyAt_key kh kt rest hw' hn
  have hcons : "PrivateKey = ".data ++ ((kh :: kt) ++ '\n' :: rest)
      = 'P' :: ("rivateKey = ".data ++ ((kh :: kt) ++ '\n' :: rest)) := by
    have hP : "PrivateKey = ".data = 'P' :: "rivateKey = ".data := by decide
    rw [hP]; rfl
  rw [hcons] at hm ⊢
  exact searchKey_cons_of_match hm

theorem grabTry_some {r : Text} {i : Nat} {g : Text}
    (h : grabTry r i = some g) : g ≠ [] ∧ '\n' ∉ g := by
  unfold grabTry at h
  split at h
  · exact absurd h (by simp)
  · next c rest _ =>
    split at h
    · exact absurd h (by simp)
    · next hc =>
      have hg : g = (c :: rest).takeWhile notNl := by simpa using h.symm
      subst hg
      refine ⟨?_, ?_⟩
      · rw [List.takeWhile_cons_of_pos (by simp [notNl, hc])]
        simp
      · intro hmem
        have := List.mem_takeWhile_imp hmem
        simp [notNl] at this

theorem grabAux_some {r : Text} {i : Nat} {g : Text}
    (h : grabAux r i = some g) : g ≠ [] ∧ '\n' ∉ g := by
  induction i with
  | zero => exact grabTry_some (by simpa [grabAux] using h)
  | succ n ih =>
    unfold grabAux at h
    split at h
    · next g' ht =>
      cases h
      exact grabTry_some ht
    · exact ih h

theorem matchKeyAt_some {s g : Text} (h : matchKeyAt s = some g) :
    g ≠ [] ∧ '\n' ∉ g := by
  unfold matchKeyAt at h
  split at h
  · exact absurd h (by simp)
  · split at h
    · exact absurd h (by simp)
    · split at h
      · exact grabAux_some h
      · exact absurd h (by simp)

theorem searchKey_some {s g : Text} (h : searchKey s = some g) :
    g ≠ [] ∧ '\n' ∉ g := by
  induction s with
  | nil => exact absurd h (by simp [searchKey])
  | cons c cs ih =>
    unfold searchKey at h
    split at h
    · next g' hm =>
      cases h
      exact matchKeyAt_some hm
    · exact ih h

end ExtractLemmas

section StripCleanLemmas
/-! ## `strip` produces clean keys -/

theorem getLastI_eq_getLast {l : Text} (h : l ≠ []) :
    l.getLastI = l.getLast h := by
  rw [List.getLastI_eq_getLast?, List.getLast?_eq_getLast l h]

theorem headI_eq_head {l : Text} (h : l ≠ []) : l.headI = l.head h := by
  obtain ⟨c, cs, rfl⟩ := List.exists_cons_of_ne_nil h
  rfl

theorem mem_of_mem_stripT {c : Char} {s : Text} (h : c ∈ stripT s) : c ∈ s := by
  have h1 : c ∈ lstripT s := mem_of_mem_rstripT h
  exact (List.dropWhile_sublist isWsChar).subset h1

theorem stripT_noNl {s : Text} (h : '\n' ∉ s) : '\n' ∉ stripT s :=
  fun hm => h (mem_of_mem_stripT hm)

theorem stripT_clean {s : Text} (hn : '\n' ∉ s) (hne : stripT s ≠ []) :
    cleanKey (stripT s) := by
  refine ⟨hne, stripT_noNl hn, ?_, ?_⟩
  · -- head of the strip is the head of the lstrip, which fails `isWsChar`
    have hl : lstripT s ≠ [] := by
      intro h0
      unfold stripT at hne
      rw [h0] at hne
      exact hne rstripT_nil
    obtain ⟨t, ht⟩ := (List.rdropWhile_prefix isWsChar (lstripT s))
    have hhead : (stripT s).headI = (lstripT s).headI := by
      obtain ⟨c, cs, hc⟩ := List.exists_cons_of_ne_nil hne
      have : lstripT s = (c :: cs) ++ t := by rw [← hc]; exact ht.symm
      rw [hc, this]
      rfl
    rw [hhead, headI_eq_head hl]
    have := List.head_dropWhile_not isWsChar s (by simpa [lstripT] using hl)
    simpa [lstripT] using this
  · rw [getLastI_eq_getLast hne]
    have := List.rdropWhile_last_not isWsChar (lstripT s) (by
      simpa [stripT, rstripT] using hne)
    simpa [stripT, rstripT] using this

theorem cleanKey_lstripT_fixed {k : Text} (h : cleanKey k) : lstripT k = k := by
  obtain ⟨hne, _, hh, _⟩ := h
  obtain ⟨c, cs, rfl⟩ := List.exists_cons_of_ne_nil hne
  unfold lstripT
  rw [List.dropWhile_cons_of_neg]
  simpa [List.headI] using hh

theorem cleanKey_rstripT_fixed {k : Text} (h : cleanKey k) : rstripT k = k := by
  obtain ⟨hne, _, _, hl⟩ := h
  rw [rstripT_eq_self_iff]
  intro h'
  rw [getLastI_eq_getLast hne] at hl
  simp [hl]

theorem cleanKey_stripT_fixed {k : Text} (h : cleanKey k) : stripT k = k := by
  unfold stripT
  rw [cleanKey_lstripT_fixed h, cleanKey_rstripT_fixed h]

end StripCleanLemmas

section DigitLemmas
/-! ## The decimal renderings contain only digits and dots -/

theorem isDigitCh_digitChar {k : Nat} (h : k < 10) : isDigitCh (digitChar k) := by
  interval_cases k <;> decide

theorem mem_natDigitsGo {fuel n : Nat} {acc : Text} {c : Char}
    (h : c ∈ natDigitsGo fuel n acc) : c ∈ acc ∨ isDigitCh c := by
  induction fuel generalizing n acc with
  | zero => exact Or.inl h
  | succ f ih =>
    unfold natDigitsGo at h
    split at h
    · rcases List.mem_cons.mp h with rfl | hacc
      · exact Or.inr (isDigitCh_digitChar (by omega))
      · exact Or.inl hacc
    · rcases ih h with hacc | hd
      · rcases List.mem_cons.mp hacc with rfl | hacc2
        · exact Or.inr (isDigitCh_digitChar (Nat.mod_lt _ (by omega)))
        · exact Or.inl hacc2
      · exact Or.inr hd

theorem mem_natText_digit {n : Nat} {c : Char} (h : c ∈ natText n) :
    isDigitCh c := by
  rcases mem_natDigitsGo h with h1 | h2
  · simp at h1
  · exact h2

theorem isDigitCh_not_ws {c : Char} (h : isDigitCh c) : ¬ isWsChar c := by
  intro hw
  have hb := hw
  simp only [isWsChar, Bool.or_eq_true, decide_eq_true_eq] at hb
  have hd : 48 ≤ c.toNat ∧ c.toNat ≤ 57 := by simpa [isDigitCh] using h
  rcases hb with ((((rfl | rfl) | rfl) | rfl) | rfl) | rfl <;> simp_all

theorem natDigitsGo_ne_nil_of_acc {fuel n : Nat} {acc : Text} (h : acc ≠ []) :
    natDigitsGo fuel n acc ≠ [] := by
  induction fuel generalizing n acc with
  | zero => exact h
  | succ f ih =>
    unfold natDigitsGo
    split
    · simp
    · exact ih (by simp)

theorem natText_ne_nil (n : Nat) : natText n ≠ [] := by
  unfold natText natDigitsGo
  split
  · simp
  · exact natDigitsGo_ne_nil_of_acc (by simp)

theorem natText_noNl (n : Nat) : '\n' ∉ natText n := by
  intro h
  exact absurd (by decide : isDigitCh '\n' = false)
    (by simpa using mem_natText_digit h)

theorem ipToText_noNl (n : Nat) : '\n' ∉ ipToText n := by
  intro h
  unfold ipToText at h
  simp only [List.mem_append, List.mem_singleton] at h
  rcases h with ((((((h | h) | h) | h) | h) | h) | h) <;>
    first
      | exact absurd (by decide : isDigitCh '\n' = false)
          (by simpa using mem_natText_digit h)
      | simp at h

theorem rstripT_natText (n : Nat) : rstripT (natText n) = natText n := by
  rw [rstripT_eq_self_iff]
  intro h
  exact isDigitCh_not_ws (mem_natText_digit (List.getLast_mem h))

end DigitLemmas

section RenderShape
/-! ## The normalized rendered config starts with the `PrivateKey` line -/

theorem normalize_unlinesT_cons2 (l1 l2 : Text) (ms : List Text)
    (h1nl : '\n' ∉ l1) (h1rf : rstripT l1 = l1)
    (h2nl : '\n' ∉ l2) (h2rf : rstripT l2 = l2)
    (hch1 : ∃ ch ∈ unlinesT (l2 :: ms), ¬ isWsChar ch)
    (hch2 : ∃ ch ∈ unlinesT ms, ¬ isWsChar ch) :
    normalizeContent (unlinesT (l1 :: l2 :: ms))
      = l1 ++ '\n' :: (l2 ++ '\n' :: normalizeContent (unlinesT ms)) := by
  rw [unlinesT_cons l1, normalizeContent_cons_line l1 _ h1nl h1rf hch1,
    unlinesT_cons l2, normalizeContent_cons_line l2 _ h2nl h2rf hch2]

theorem normalize_render_shape (vpn : VpnNetwork) (routers : List Router)
    (k sip : Text) (plen : Nat) (hk : cleanKey k) :
    ∃ rest, normalizeContent (renderConfig vpn routers k sip plen)
      = "[Interface]\nPrivateKey = ".data ++ (k ++ '\n' :: rest) := by
  obtain ⟨hne, hnl, hh, hl⟩ := hk
  rcases List.eq_nil_or_concat' k with rfl | ⟨t, c, rfl⟩
  · exact absurd rfl hne
  have hcws : ¬ isWsChar c := by
    rw [getLastI_eq_getLast hne] at hl
    simpa [List.getLast_append] using hl
  set tail3 : List Text := ("Address = ".data ++ sip ++ ['/'] ++ natText plen) ::
    "ListenPort = 51820".data ::
    ((if vpn.dns_servers ≠ [] then ["DNS = ".data ++ vpn.dns_servers] else [])
      ++ ([[], "# Peers adicionados automaticamente pela API".data, []]
        ++ (routers.map (routerPeerLines vpn)).flatten)) with htail3
  have hlines : renderLines vpn routers (t ++ [c]) sip plen
      = "[Interface]".data :: ("PrivateKey = ".data ++ (t ++ [c])) :: tail3 := by
    rw [htail3]
    simp [renderLines, headerLines]
  have h2nl : '\n' ∉ "PrivateKey = ".data ++ (t ++ [c]) := by
    intro hm
    rcases List.mem_append.mp hm with hm1 | hm2
    · revert hm1; decide
    · exact hnl hm2
  have h2rf : rstripT ("PrivateKey = ".data ++ (t ++ [c]))
      = "PrivateKey = ".data ++ (t ++ [c]) := by
    rw [show "PrivateKey = ".data ++ (t ++ [c])
        = ("PrivateKey = ".data ++ t) ++ [c] by simp,
      rstripT_concat_neg _ _ hcws]
  have hch1 : ∃ ch ∈ unlinesT (("PrivateKey = ".data ++ (t ++ [c])) :: tail3),
      ¬ isWsChar ch := by
    refine ⟨'P', ?_, by decide⟩
    rw [unlinesT_cons]
    exact List.mem_append_left _ (List.mem_append_left _ (by decide))
  have hch2 : ∃ ch ∈ unlinesT tail3, ¬ isWsChar ch := by
    refine ⟨'A', ?_, by decide⟩
    rw [htail3, unlinesT_cons]
    refine List.mem_append_left _ ?_
    exact List.mem_append_left _ (List.mem_append_left _ (List.mem_append_left _ (by decide)))
  refine ⟨normalizeContent (unlinesT tail3), ?_⟩
  unfold renderConfig
  rw [hlines, normalize_unlinesT_cons2 _ _ _ (by decide) (by decide) h2nl h2rf hch1 hch2]
  have hpre : "[Interface]\nPrivateKey = ".data
      = "[Interface]".data ++ '\n' :: "PrivateKey = ".data := by decide
  rw [hpre]
  simp

end RenderShape

section RebuildStability
/-! ## A written config file is a fixed point of the rebuild -/

theorem rebuildKey_clean {vpn : VpnNetwork} {c : Text}
    (hkey : cleanOrEmptyKey vpn) (hne : rebuildKey vpn c ≠ []) :
    cleanKey (rebuildKey vpn c) := by
  rcases hs : searchKey c with _ | g
  · have hk : rebuildKey vpn c = vpn.server_private_key := by
      unfold rebuildKey
      rw [hs]
    rw [hk] at hne ⊢
    rcases hkey with h0 | hclean
    · exact absurd h0 hne
    · exact hclean
  · have hk : rebuildKey vpn c = stripT g := by
      unfold rebuildKey
      rw [hs]
    rw [hk] at hne ⊢
    exact stripT_clean (searchKey_some hs).2 hne

theorem rebuild_write_inv {vpn : VpnNetwork} {routers : List Router}
    {c₀ n : Text} {s : Text → Bool}
    (h : rebuildInterfaceConfig vpn routers c₀ s = .ok (true, n)) :
    ∃ np sipN, rebuildKey vpn c₀ ≠ [] ∧ parseCidr vpn.cidr = some np
      ∧ serverIpNat np.1 = some sipN
      ∧ n = desiredContent vpn routers (rebuildKey vpn c₀) sipN np.2
      ∧ s n = true := by
  unfold rebuildInterfaceConfig at h
  split at h
  · exact absurd h (by simp)
  · next hne =>
    split at h
    · exact absurd h (by simp)
    · next np hp =>
      split at h
      · exact absurd h (by simp)
      · next sipN hsip =>
        split at h
        · exact absurd h (by simp)
        · split at h
          · next hstr =>
            refine ⟨np, sipN, hne, hp, hsip, ?_, ?_⟩
            · cases h; rfl
            · cases h; exact hstr
          · exact absurd h (by simp)

theorem rebuild_false_inv {vpn : VpnNetwork} {routers : List Router}
    {c₀ f : Text} {s : Text → Bool}
    (h : rebuildInterfaceConfig vpn routers c₀ s = .ok (false, f)) : f = c₀ := by
  unfold rebuildInterfaceConfig at h
  split at h
  · cases h; rfl
  · split at h
    · exact absurd h (by simp)
    · split at h
      · exact absurd h (by simp)
      · split at h
        · cases h; rfl
        · split at h
          · exact absurd h (by simp)
          · cases h; rfl

/-- The central stability fact: once `rebuild_interface_config` has written
a file, a second call on the written content is a no-op (`False`). -/
theorem rebuild_write_stable {vpn : VpnNetwork} {routers : List Router}
    {c₀ n : Text} {s : Text → Bool}
    (hkey : cleanOrEmptyKey vpn)
    (h : rebuildInterfaceConfig vpn routers c₀ s = .ok (true, n)) :
    rebuildInterfaceConfig vpn routers n s = .ok (false, n) := by
  obtain ⟨np, sipN, hne, hp, hsip, hn, hstrip⟩ := rebuild_write_inv h
  have hclean := rebuildKey_clean hkey hne
  obtain ⟨rest, hshape⟩ := normalize_render_shape vpn routers
    (rebuildKey vpn c₀) (ipToText sipN) np.2 hclean
  have hsearch : searchKey n = some (rebuildKey vpn c₀) := by
    rw [hn]
    unfold desiredContent
    rw [hshape]
    exact searchKey_shape _ _ hclean.1 (by simpa using hclean.2.2.1) hclean.2.1
  have hkey2 : rebuildKey vpn n = rebuildKey vpn c₀ := by
    unfold rebuildKey
    rw [hsearch]
    exact cleanKey_stripT_fixed hclean
  have hcur : normalizeContent n = n := by
    rw [hn]
    unfold desiredContent
    exact normalizeContent_idem _
  unfold rebuildInterfaceConfig
  rw [hkey2, if_neg hne]
  simp only [hp, hsip]
  rw [if_pos ⟨by rw [hcur, hn], hstrip⟩]

end RebuildStability

section StepStability
/-! ## One sync-loop iteration leaves its own file stable -/

theorem fsLookup_fsSet_self (fs : FileSys) (p c : Text) :
    fsLookup (fsSet fs p c) p = some c := by
  induction fs with
  | nil => simp [fsSet, fsLookup]
  | cons e es ih =>
    by_cases he : e.1 = p
    · simp [fsSet, he, fsLookup]
    · simp only [fsSet, if_neg he]
      simpa [fsLookup, he] using ih

theorem fsLookup_fsSet_ne (fs : FileSys) (p q c : Text) (h : q ≠ p) :
    fsLookup (fsSet fs p c) q = fsLookup fs q := by
  induction fs with
  | nil => simp [fsSet, fsLookup, Ne.symm h]
  | cons e es ih =>
    by_cases he : e.1 = p
    · subst he
      simp [fsSet, fsLookup, Ne.symm h]
    · simp only [fsSet, if_neg he]
      by_cases hq : e.1 = q
      · simp [fsLookup, hq]
      · simpa [fsLookup, hq] using ih

theorem ensure_ok_inv {env : SysEnv} {vpn : VpnNetwork} {fs fs1 : FileSys}
    {a : List Act}
    (h0 : fsLookup fs (cfgPath (interfaceName vpn.id)) = none)
    (he : ensureInterfaceExists env vpn fs = .ok (fs1, a)) :
    ∃ c, fs1 = fsSet fs (cfgPath (interfaceName vpn.id)) c := by
  unfold ensureInterfaceExists at he
  rw [if_neg (by simp [h0])] at he
  split at he
  · exact absurd he (by simp)
  · split at he
    · exact absurd he (by simp)
    · cases he
      exact ⟨_, rfl⟩

theorem rebuildApply_ok_inv {env : SysEnv} {vpn : VpnNetwork}
    {routers : List Router} {fs fs1 : FileSys} {content : Text} {a : List Act}
    (hkey : cleanOrEmptyKey vpn)
    (hc : fsLookup fs (cfgPath (interfaceName vpn.id)) = some content)
    (h : rebuildApply env vpn routers fs content = .ok (fs1, a)) :
    ∃ c, fsLookup fs1 (cfgPath (interfaceName vpn.id)) = some c
      ∧ rebuildInterfaceConfig vpn routers c env.stripOk = .ok (false, c)
      ∧ ∀ q, q ≠ cfgPath (interfaceName vpn.id) →
          fsLookup fs1 q = fsLookup fs q := by
  unfold rebuildApply at h
  split at h
  · exact absurd h (by simp)
  · next f hr =>
    cases h
    have hf : f = content := rebuild_false_inv hr
    exact ⟨content, hc, hf ▸ hr, fun q _ => rfl⟩
  · next nw hr =>
    cases h
    refine ⟨nw, fsLookup_fsSet_self .., rebuild_write_stable hkey hr, ?_⟩
    intro q hq
    exact fsLookup_fsSet_ne _ _ _ _ hq

theorem step_ok_stable {env : SysEnv} {routers : List Router}
    {vpn : VpnNetwork} {fs fs1 : FileSys} {a : List Act}
    (hkey : cleanOrEmptyKey vpn)
    (h : syncPeerStep env routers vpn fs = .ok (fs1, a)) :
    (∃ c, fsLookup fs1 (cfgPath (interfaceName vpn.id)) = some c
       ∧ rebuildInterfaceConfig vpn routers c env.stripOk = .ok (false, c))
    ∧ ∀ q, q ≠ cfgPath (interfaceName vpn.id) →
        fsLookup fs1 q = fsLookup fs q := by
  unfold syncPeerStep at h
  split at h
  · next content hc =>
    obtain ⟨c, h1, h2, h3⟩ := rebuildApply_ok_inv hkey hc h
    exact ⟨⟨c, h1, h2⟩, h3⟩
  · next h0 =>
    split at h
    · exact absurd h (by simp)
    · next fsE aE hens =>
      obtain ⟨cE, hfsE⟩ := ensure_ok_inv h0 hens
      have hlkE : fsLookup fsE (cfgPath (interfaceName vpn.id)) = some cE := by
        rw [hfsE]
        exact fsLookup_fsSet_self ..
      split at h
      · next hnone =>
        rw [hlkE] at hnone
        cases hnone
      · next content hcE =>
        split at h
        · exact absurd h (by simp)
        · next fs2 a2 happ =>
          cases h
          obtain ⟨c, h1, h2, h3⟩ := rebuildApply_ok_inv hkey hcE happ
          refine ⟨⟨c, h1, h2⟩, ?_⟩
          intro q hq
          rw [h3 q hq, hfsE, fsLookup_fsSet_ne _ _ _ _ hq]

theorem step_of_stable {env : SysEnv} {routers : List Router}
    {vpn : VpnNetwork} {fs : FileSys} {c : Text}
    (hc : fsLookup fs (cfgPath (interfaceName vpn.id)) = some c)
    (hr : rebuildInterfaceConfig vpn routers c env.stripOk = .ok (false, c)) :
    syncPeerStep env routers vpn fs = .ok (fs, []) := by
  unfold syncPeerStep
  simp only [hc]
  unfold rebuildApply
  simp only [hr]

end StepStability

section SyncStability
/-! ## The peer-sync loop is quiescent on its own output -/

theorem rebuildApply_frame {env : SysEnv} {vpn : VpnNetwork}
    {routers : List Router} {fs fs1 : FileSys} {content : Text} {a : List Act}
    (h : rebuildApply env vpn routers fs content = .ok (fs1, a))
    (q : Text) (hq : q ≠ cfgPath (interfaceName vpn.id)) :
    fsLookup fs1 q = fsLookup fs q := by
  unfold rebuildApply at h
  split at h
  · exact absurd h (by simp)
  · cases h
    rfl
  · cases h
    exact fsLookup_fsSet_ne _ _ _ _ hq

theorem step_frame {env : SysEnv} {routers : List Router} {vpn : VpnNetwork}
    {fs fs1 : FileSys} {a : List Act}
    (h : syncPeerStep env routers vpn fs = .ok (fs1, a))
    (q : Text) (hq : q ≠ cfgPath (interfaceName vpn.id)) :
    fsLookup fs1 q = fsLookup fs q := by
  unfold syncPeerStep at h
  split at h
  · exact rebuildApply_frame h q hq
  · next h0 =>
    split at h
    · exact absurd h (by simp)
    · next fsE aE hens =>
      obtain ⟨cE, hfsE⟩ := ensure_ok_inv h0 hens
      have hE : fsLookup fsE q = fsLookup fs q := by
        rw [hfsE]
        exact fsLookup_fsSet_ne _ _ _ _ hq
      split at h
      · cases h
        exact hE
      · split at h
        · exact absurd h (by simp)
        · cases h
          rw [rebuildApply_frame (by assumption) q hq, hE]

theorem syncPeersGo_nil (env : SysEnv) (routers : List Router) (fs : FileSys) :
    syncPeersGo env routers [] fs = (fs, [], false) := rfl

theorem syncPeersGo_cons_inactive {env : SysEnv} {v : VpnNetwork}
    (routers : List Router) (vs : List VpnNetwork) (fs : FileSys)
    (h : env.active (interfaceName v.id) = false) :
    syncPeersGo env routers (v :: vs) fs = syncPeersGo env routers vs fs := by
  simp [syncPeersGo, h]

theorem syncPeersGo_cons_err {env : SysEnv} {routers : List Router}
    {v : VpnNetwork} {fs : FileSys} (vs : List VpnNetwork)
    (ha : env.active (interfaceName v.id) = true)
    (hst : syncPeerStep env routers v fs = .error ()) :
    syncPeersGo env routers (v :: vs) fs = (fs, [], true) := by
  simp [syncPeersGo, ha, hst]

theorem syncPeersGo_cons_ok {env : SysEnv} {routers : List Router}
    {v : VpnNetwork} {fs fsA : FileSys} {a : List Act} (vs : List VpnNetwork)
    (ha : env.active (interfaceName v.id) = true)
    (hst : syncPeerStep env routers v fs = .ok (fsA, a)) :
    syncPeersGo env routers (v :: vs) fs
      = ((syncPeersGo env routers vs fsA).1,
         a ++ (syncPeersGo env routers vs fsA).2.1,
         (syncPeersGo env routers vs fsA).2.2) := by
  simp [syncPeersGo, ha, hst]

theorem syncPeersGo_frame {env : SysEnv} {routers : List Router}
    (vs : List VpnNetwork) (fs : FileSys) (q : Text)
    (hq : ∀ v ∈ vs, q ≠ cfgPath (interfaceName v.id)) :
    fsLookup (syncPeersGo env routers vs fs).1 q = fsLookup fs q := by
  induction vs generalizing fs with
  | nil => rfl
  | cons v vs ih =>
    by_cases ha : env.active (interfaceName v.id)
    · rcases hst : syncPeerStep env routers v fs with u | ⟨fsA, a⟩
      · cases u
        rw [syncPeersGo_cons_err vs ha hst]
      · rw [syncPeersGo_cons_ok vs ha hst]
        have ht := ih fsA (fun w hw => hq w (List.mem_cons_of_mem v hw))
        rw [ht, step_frame hst q (hq v (by simp))]
    · rw [syncPeersGo_cons_inactive routers vs fs (by simpa using ha)]
      exact ih fs (fun w hw => hq w (List.mem_cons_of_mem v hw))

theorem cfgPath_inj {a b : Text} (h : cfgPath a = cfgPath b) : a = b := by
  unfold cfgPath at h
  rw [List.append_assoc, List.append_assoc] at h
  have h2 := List.append_cancel_left h
  exact List.append_cancel_right h2

theorem syncPeersGo_second (env : SysEnv) (routers : List Router)
    (vs : List VpnNetwork) (fs0 : FileSys)
    (hkeys : ∀ v ∈ vs, cleanOrEmptyKey v)
    (hnd : (vs.map (fun v => interfaceName v.id)).Nodup) :
    syncPeersGo env routers vs (syncPeersGo env routers vs fs0).1
      = ((syncPeersGo env routers vs fs0).1, [],
         (syncPeersGo env routers vs fs0).2.2) := by
  induction vs generalizing fs0 with
  | nil => rfl
  | cons v vs ih =>
    have hkv : cleanOrEmptyKey v := hkeys v (by simp)
    have hkt : ∀ w ∈ vs, cleanOrEmptyKey w :=
      fun w hw => hkeys w (List.mem_cons_of_mem v hw)
    have hnd2 : (interfaceName v.id :: vs.map (fun w => interfaceName w.id)).Nodup := by
      simpa using hnd
    have hnd' := List.nodup_cons.mp hnd2
    by_cases ha : env.active (interfaceName v.id)
    · rcases hst : syncPeerStep env routers v fs0 with u | ⟨fsA, a⟩
      · cases u
        rw [syncPeersGo_cons_err vs ha hst]
        simp only
        rw [syncPeersGo_cons_err vs ha hst]
      · rw [syncPeersGo_cons_ok vs ha hst]
        simp only
        obtain ⟨⟨c, hlk, hstab⟩, _⟩ := step_ok_stable hkv hst
        have hpaths : ∀ w ∈ vs, cfgPath (interfaceName v.id)
            ≠ cfgPath (interfaceName w.id) := by
          intro w hw hcp
          exact hnd'.1 (by
            rw [cfgPath_inj hcp]
            exact List.mem_map_of_mem _ hw)
        have hlk1 : fsLookup (syncPeersGo env routers vs fsA).1
            (cfgPath (interfaceName v.id)) = some c := by
          rw [syncPeersGo_frame vs fsA _ hpaths]
          exact hlk
        have hstep2 := step_of_stable hlk1 hstab
        rw [syncPeersGo_cons_ok vs ha hstep2, ih fsA hkt hnd'.2]
        simp
    · have hin := @syncPeersGo_cons_inactive env v routers vs
      rw [hin fs0 (by simpa using ha), hin _ (by simpa using ha)]
      exact ih fs0 hkt hnd'.2

end SyncStability

section ClaimC1
/-! ## Claim C1 -/

/-- C1 (amended): reconciliation is idempotent for snapshots whose server
private keys are clean (empty, or free of surrounding whitespace and of
newlines) and whose networks have pairwise distinct derived interface
names: for every such snapshot and every prior file-system state, running
`sync_peers_with_routers` a second time on the unchanged snapshot writes
no config file, leaves every file byte-identical, and therefore performs
no `wg-quick down`/`up` on any interface. -/
theorem c1_second_pass_writes_nothing
    (env : SysEnv) (routers : List Router) (vpns : List VpnNetwork)
    (fs0 : FileSys)
    (hkeys : ∀ v ∈ vpns, cleanOrEmptyKey v)
    (hnd : (vpns.map (fun v => interfaceName v.id)).Nodup) :
    syncPeersWithRouters env routers vpns
        (syncPeersWithRouters env routers vpns fs0).1
      = ((syncPeersWithRouters env routers vpns fs0).1, []) := by
  unfold syncPeersWithRouters
  by_cases hall : vpns.all (fun v => !(env.active (interfaceName v.id)))
  · simp only [if_pos hall]
  · simp only [if_neg hall]
    rw [syncPeersGo_second env routers vpns fs0 hkeys hnd]

/-- C1 witness: the amended idempotence theorem applied to a concrete
one-network snapshot with a clean key, starting from an empty config
directory (the first pass creates and rewrites the file, the second pass
is a no-op). -/
theorem c1_second_pass_writes_nothing_witness :
    syncPeersWithRouters envAllOk [] [vpnC1w]
        (syncPeersWithRouters envAllOk [] [vpnC1w] []).1
      = ((syncPeersWithRouters envAllOk [] [vpnC1w] []).1, []) :=
  c1_second_pass_writes_nothing envAllOk [] [vpnC1w] []
    (by decide) (by decide)

/-- C1 counterexample: as stated (for *every* snapshot) the claim is
false.  With the snapshot `vpnC1x`, whose `server_private_key` is `" K"`
(leading space), and an existing empty config file, the first pass writes
`PrivateKey =  K`; the second pass re-extracts the key as `"K"`, renders a
different text, and writes the file again — performing `wg-quick
down`/`up`. -/
theorem c1_counterexample :
    (syncPeersWithRouters envAllOk [] [vpnC1x]
        (syncPeersWithRouters envAllOk [] [vpnC1x] fsC1x).1).2 ≠ [] := by
  decide

end ClaimC1

section ClaimC4
/-! ## Claim C4 -/

theorem contains_iff_memT {l : Text} {c : Char} :
    l.contains c = true ↔ c ∈ l := by
  simp [List.contains]

theorem splitOnce_reconstruct {sep : Char} {x : Text} (h : x.contains sep) :
    x = (splitOnce sep x).1 ++ sep :: (splitOnce sep x).2 := by
  induction x with
  | nil => simp at h
  | cons c cs ih =>
    by_cases hc : c = sep
    · subst hc
      simp [splitOnce]
    · have hcs : cs.contains sep := by
        rcases List.mem_cons.mp (contains_iff_memT.mp h) with h1 | h2
        · exact absurd h1.symm hc
        · exact contains_iff_memT.mpr h2
      simp only [splitOnce, if_neg hc]
      rw [List.cons_append]
      exact congrArg (c :: ·) (ih hcs)

theorem splitOnce_no_sep {sep : Char} {x : Text} (h : x.contains sep = false) :
    splitOnce sep x = (x, []) := by
  induction x with
  | nil => rfl
  | cons c cs ih =>
    have hmem : sep ∉ c :: cs := by
      intro hm
      rw [← contains_iff_memT] at hm
      rw [h] at hm
      cases hm
    have hc : c ≠ sep := fun hc => hmem (hc ▸ List.mem_cons_self c cs)
    have hcs : cs.contains sep = false := by
      rcases hcc : cs.contains sep with _ | _
      · rfl
      · exact absurd (List.mem_cons_of_mem c (contains_iff_memT.mp hcc)) hmem
    simp [splitOnce, if_neg hc, ih hcs]

/-- C4: for every allowed-IPs string as the renderer passes it to
`normalize_allowed_ips` (non-empty and already stripped, which
`rebuild_interface_config` guarantees), the output splits into the same
number of comma-separated elements; the first is the input's first element
coerced to `/32` (appended when no `/` is present, kept verbatim when the
prefix is already `32`) and in particular always ends in `/32`, while every
subsequent element is passed through unchanged apart from whitespace
stripping (its prefix untouched). -/
theorem c4_normalize_allowed_ips (s f : Text) (rest : List Text)
    (hne : s ≠ []) (hstrip : stripT s = s)
    (hsplit : splitCh ',' s = f :: rest) :
    splitCh ',' (normalizeAllowedIps s)
        = coerceFirstIp (stripT f) :: rest.map stripT
      ∧ "/32".data <:+ coerceFirstIp (stripT f)
      ∧ ((stripT f).contains '/' = false →
          coerceFirstIp (stripT f) = stripT f ++ "/32".data)
      ∧ ((splitOnce '/' (stripT f)).2 = "32".data →
          coerceFirstIp (stripT f) = stripT f) := by
  have hout : normalizeAllowedIps s
      = joinCh ',' (coerceFirstIp (stripT f) :: rest.map stripT) := by
    unfold normalizeAllowedIps
    rw [if_neg (by simp [hne, hstrip])]
    simp only [hsplit, List.map_cons]
  have hfns : ',' ∉ f := mem_splitCh_not_sep (hsplit ▸ List.mem_cons_self f rest)
  have hfstrip : ',' ∉ stripT f := fun hm => hfns (mem_of_mem_stripT hm)
  have hcoerce : ',' ∉ coerceFirstIp (stripT f) := by
    unfold coerceFirstIp
    split
    · next hcont =>
      split
      · intro hm
        rcases List.mem_append.mp hm with h1 | h2
        · exact hfstrip ((splitOnce_reconstruct hcont) ▸
            List.mem_append_left _ h1)
        · revert h2; decide
      · exact hfstrip
    · intro hm
      rcases List.mem_append.mp hm with h1 | h2
      · exact hfstrip h1
      · revert h2; decide
  have hrest : ∀ l ∈ rest.map stripT, ',' ∉ l := by
    intro l hl
    obtain ⟨x, hx, rfl⟩ := List.mem_map.mp hl
    exact fun hm => mem_splitCh_not_sep
      (hsplit ▸ List.mem_cons_of_mem f hx) (mem_of_mem_stripT hm)
  have hsuffix : "/32".data <:+ coerceFirstIp (stripT f) := by
    unfold coerceFirstIp
    split
    · next hcont =>
      split
      · exact ⟨(splitOnce '/' (stripT f)).1, rfl⟩
      · next hp =>
        refine ⟨(splitOnce '/' (stripT f)).1, ?_⟩
        have hp32 : (splitOnce '/' (stripT f)).2 = "32".data := by
          by_contra hcon
          exact hp hcon
        conv_rhs => rw [splitOnce_reconstruct hcont, hp32]
    · exact ⟨stripT f, rfl⟩
  refine ⟨?_, hsuffix, ?_, ?_⟩
  · rw [hout]
    exact splitCh_joinCh ',' _
      (by
        intro l hl
        rcases List.mem_cons.mp hl with rfl | h2
        · exact hcoerce
        · exact hrest l h2)
      (by simp)
  · intro hnc
    unfold coerceFirstIp
    rw [if_neg (by rw [hnc]; simp)]
  · intro hp32
    unfold coerceFirstIp
    split
    · rw [if_neg (by simp [hp32])]
    · next hcont =>
      have hsn := @splitOnce_no_sep '/' (stripT f)
        (by simpa using hcont)
      rw [hsn] at hp32
      simp at hp32

/-- C4 witness: the docstring example `"10.222.111.3/24,192.168.1.0/24"`. -/
theorem c4_normalize_allowed_ips_witness :
    splitCh ',' (normalizeAllowedIps "10.222.111.3/24,192.168.1.0/24".data)
        = coerceFirstIp (stripT "10.222.111.3/24".data)
            :: ["192.168.1.0/24".data].map stripT
      ∧ "/32".data <:+ coerceFirstIp (stripT "10.222.111.3/24".data)
      ∧ ((stripT "10.222.111.3/24".data).contains '/' = false →
          coerceFirstIp (stripT "10.222.111.3/24".data)
            = stripT "10.222.111.3/24".data ++ "/32".data)
      ∧ ((splitOnce '/' (stripT "10.222.111.3/24".data)).2 = "32".data →
          coerceFirstIp (stripT "10.222.111.3/24".data)
            = stripT "10.222.111.3/24".data) :=
  c4_normalize_allowed_ips "10.222.111.3/24,192.168.1.0/24".data
    "10.222.111.3/24".data ["192.168.1.0/24".data]
    (by decide) (by decide) (by decide)

end ClaimC4

section ClaimC5
/-! ## Claim C5 -/

/-- C5: for every peer with a positive handshake timestamp, the runtime
parser classifies its status as `online` if and only if
`wall_clock - handshake ∈ [0, 180)` seconds; a negative difference
(handshake in the future) yields `offline`, and a missing or zero
handshake yields `offline`. -/
theorem c5_status_classification (ts : Int) (now : ℚ) (hpos : 0 < ts) :
    (classifyPeerStatus (some ts) now = "online"
        ↔ 0 ≤ now - (ts : ℚ) ∧ now - (ts : ℚ) < 180)
    ∧ (now - (ts : ℚ) < 0 → classifyPeerStatus (some ts) now = "offline")
    ∧ classifyPeerStatus none now = "offline"
    ∧ classifyPeerStatus (some 0) now = "offline" := by
  have hcond : ts ≠ 0 ∧ 0 < ts := ⟨by omega, hpos⟩
  refine ⟨⟨?_, ?_⟩, ?_, rfl, by simp [classifyPeerStatus]⟩
  · intro h
    by_cases h1 : now - (ts : ℚ) < 0
    · exfalso
      have hoff : classifyPeerStatus (some ts) now = "offline" := by
        simp only [classifyPeerStatus]
        rw [if_pos hcond, if_pos h1]
      rw [hoff] at h
      exact absurd h (by decide)
    · by_cases h2 : now - (ts : ℚ) < 180
      · exact ⟨le_of_not_lt h1, h2⟩
      · exfalso
        have hoff : classifyPeerStatus (some ts) now = "offline" := by
          simp only [classifyPeerStatus]
          rw [if_pos hcond, if_neg h1, if_neg h2]
        rw [hoff] at h
        exact absurd h (by decide)
  · rintro ⟨hge, hlt⟩
    simp only [classifyPeerStatus]
    rw [if_pos hcond, if_neg (not_lt.mpr hge), if_pos hlt]
  · intro hneg
    simp only [classifyPeerStatus]
    rw [if_pos hcond, if_pos hneg]

/-- C5 witness: a handshake 120 seconds old is `online` (and the other
clauses at the same instant). -/
theorem c5_status_classification_witness :
    (classifyPeerStatus (some 1000) 1120 = "online"
        ↔ 0 ≤ (1120 : ℚ) - ((1000 : Int) : ℚ)
          ∧ (1120 : ℚ) - ((1000 : Int) : ℚ) < 180)
    ∧ ((1120 : ℚ) - ((1000 : Int) : ℚ) < 0 →
        classifyPeerStatus (some 1000) 1120 = "offline")
    ∧ classifyPeerStatus none 1120 = "offline"
    ∧ classifyPeerStatus (some 0) 1120 = "offline" :=
  c5_status_classification 1000 1120 (by decide)

end ClaimC5

section ClaimC7
/-! ## Claim C7 -/

/-- C7: the claim describes the intended `PUT` payload, but the code
cannot produce it when the router is online: src/monitor.py line 308
evaluates `timezone.utc` while line 10 imports only `datetime` from the
`datetime` module, so the online branch raises
`NameError: name 'timezone' is not defined` before the `PUT` is issued.
The offline branch sends `status = 2` with neither `lastSeenAt` nor
`latency`, as the claim states. -/
theorem c7_monitor_update_name_error :
    monitorRouterUpdateData true (some (3 / 2))
        = .error "NameError: name 'timezone' is not defined"
      ∧ monitorRouterUpdateData false (some (3 / 2))
        = .ok [RouterField.statusField 2]
      ∧ monitorRouterUpdateData false none
        = .ok [RouterField.statusField 2] :=
  ⟨rfl, rfl, rfl⟩

end ClaimC7

section ClaimC8
/-! ## Claim C8 -/

/-- C8: the monitor's router status decision prefers WireGuard truth over
ICMP truth: when the first enabled peer's public key appears in the
runtime dump, the router is online exactly when that peer's parsed status
is `online` (the ICMP result is ignored); only when the peer is absent
from the dump is the decision the ICMP ping success. -/
theorem c8_monitor_prefers_wireguard (r : Router) (wg : List WgInterfaceView)
    (ping : Bool) (ap : Peer) (ip : Text)
    (hap : firstEnabledPeer r.peers = some ap)
    (hip : routerIpFromPeer ap = some ip) (hipne : ip ≠ []) :
    (∀ st, findPeerStats wg ap.public_key = some st →
        (routerOnlineDecision r wg ping = some true ↔ st.status = "online"))
    ∧ (findPeerStats wg ap.public_key = none →
        routerOnlineDecision r wg ping = some ping) := by
  constructor
  · intro st hst
    simp [routerOnlineDecision, hap, hip, hipne, hst]
  · intro hnone
    simp [routerOnlineDecision, hap, hip, hipne, hnone]

/-- C8 witness: a one-peer router whose peer is present in the dump with
status `online`; the decision agrees with the dump and ignores the ping. -/
theorem c8_monitor_prefers_wireguard_witness :
    (∀ st, findPeerStats
          [WgInterfaceView.mk "wg-aaaaaaaa".data
            [WgPeerStats.mk "PK1".data "online"]]
          (Peer.mk "p1".data "PK1".data "10.0.0.2/32".data true).public_key
        = some st →
        (routerOnlineDecision
            (Router.mk "r1".data "R".data "v1".data
              [Peer.mk "p1".data "PK1".data "10.0.0.2/32".data true])
            [WgInterfaceView.mk "wg-aaaaaaaa".data
              [WgPeerStats.mk "PK1".data "online"]] false
          = some true ↔ st.status = "online"))
    ∧ (findPeerStats
          [WgInterfaceView.mk "wg-aaaaaaaa".data
            [WgPeerStats.mk "PK1".data "online"]]
          (Peer.mk "p1".data "PK1".data "10.0.0.2/32".data true).public_key
        = none →
        routerOnlineDecision
            (Router.mk "r1".data "R".data "v1".data
              [Peer.mk "p1".data "PK1".data "10.0.0.2/32".data true])
            [WgInterfaceView.mk "wg-aaaaaaaa".data
              [WgPeerStats.mk "PK1".data "online"]] false
          = some false) :=
  c8_monitor_prefers_wireguard
    (Router.mk "r1".data "R".data "v1".data
      [Peer.mk "p1".data "PK1".data "10.0.0.2/32".data true])
    [WgInterfaceView.mk "wg-aaaaaaaa".data [WgPeerStats.mk "PK1".data "online"]]
    false
    (Peer.mk "p1".data "PK1".data "10.0.0.2/32".data true)
    "10.0.0.2".data
    (by decide) (by decide) (by decide)

end ClaimC8

section ClaimC10
/-! ## Claim C10 -/

theorem cacheLookup_cacheSet_self (cache : PeerCache) (pk : Text)
    (info : PeerInfo) : cacheLookup (cacheSet cache pk info) pk = some info := by
  induction cache with
  | nil => simp [cacheSet, cacheLookup]
  | cons e es ih =>
    by_cases he : e.1 = pk
    · simp [cacheSet, he, cacheLookup]
    · simp only [cacheSet, if_neg he]
      simpa [cacheLookup, he] using ih

theorem cacheLookup_cacheSet_ne (cache : PeerCache) (pk q : Text)
    (info : PeerInfo) (h : q ≠ pk) :
    cacheLookup (cacheSet cache pk info) q = cacheLookup cache q := by
  induction cache with
  | nil => simp [cacheSet, cacheLookup, Ne.symm h]
  | cons e es ih =>
    by_cases he : e.1 = pk
    · subst he
      simp [cacheSet, cacheLookup, Ne.symm h]
    · simp only [cacheSet, if_neg he]
      by_cases hq : e.1 = q
      · simp [cacheLookup, hq]
      · simpa [cacheLookup, hq] using ih

/-- C10: `set_peer_info` preserves existing data: a call with an empty
(falsy) `public_key` leaves the cache entirely unchanged; a call for an
already-cached public key overwrites exactly the fields whose arguments
are non-`None`, leaves every field whose argument is `None` at its
previously stored value, and touches no other cache entry. -/
theorem c10_set_peer_info_frame (cache : PeerCache) (pk : Text)
    (rid rname vid vname pip aips : Option Text) (info : PeerInfo)
    (hlk : cacheLookup cache pk = some info) (hne : pk ≠ []) :
    setPeerInfo cache [] rid rname vid vname pip aips = cache
    ∧ ∃ newInfo,
        cacheLookup (setPeerInfo cache pk rid rname vid vname pip aips) pk
            = some newInfo
        ∧ (rid = none → newInfo.router_id = info.router_id)
        ∧ (∀ v, rid = some v → newInfo.router_id = some v)
        ∧ (rname = none → newInfo.router_name = info.router_name)
        ∧ (∀ v, rname = some v → newInfo.router_name = some v)
        ∧ (vid = none → newInfo.vpn_network_id = info.vpn_network_id)
        ∧ (∀ v, vid = some v → newInfo.vpn_network_id = some v)
        ∧ (vname = none → newInfo.vpn_network_name = info.vpn_network_name)
        ∧ (∀ v, vname = some v → newInfo.vpn_network_name = some v)
        ∧ (pip = none → newInfo.peer_ip = info.peer_ip)
        ∧ (∀ v, pip = some v → newInfo.peer_ip = some v)
        ∧ (aips = none → newInfo.allowed_ips = info.allowed_ips)
        ∧ (∀ v, aips = some v → newInfo.allowed_ips = some v)
        ∧ ∀ q, q ≠ pk →
            cacheLookup (setPeerInfo cache pk rid rname vid vname pip aips) q
              = cacheLookup cache q := by
  constructor
  · simp [setPeerInfo]
  · unfold setPeerInfo
    rw [if_neg hne, hlk]
    refine ⟨_, cacheLookup_cacheSet_self cache pk _, ?_⟩
    refine ⟨?_, ?_, ?_, ?_, ?_, ?_, ?_, ?_, ?_, ?_, ?_, ?_, ?_⟩
    · intro h; simp [h]
    · intro v h; simp [h]
    · intro h; simp [h]
    · intro v h; simp [h]
    · intro h; simp [h]
    · intro v h; simp [h]
    · intro h; simp [h]
    · intro v h; simp [h]
    · intro h; simp [h]
    · intro v h; simp [h]
    · intro h; simp [h]
    · intro v h; simp [h]
    · intro q hq
      exact cacheLookup_cacheSet_ne cache pk q _ hq

/-- C10 witness: an existing entry updated with only `peer_ip` non-`None`
keeps its other fields, and a foreign entry is untouched. -/
theorem c10_set_peer_info_frame_witness :
    setPeerInfo [("PK1".data,
        PeerInfo.mk (some "r1".data) none none none none none)] []
        none none none none (some "9.9.9.9".data) none
      = [("PK1".data, PeerInfo.mk (some "r1".data) none none none none none)]
    ∧ ∃ newInfo,
        cacheLookup (setPeerInfo [("PK1".data,
            PeerInfo.mk (some "r1".data) none none none none none)] "PK1".data
            none none none none (some "9.9.9.9".data) none) "PK1".data
            = some newInfo
        ∧ ((none : Option Text) = none → newInfo.router_id
            = (PeerInfo.mk (some "r1".data) none none none none none).router_id)
        ∧ (∀ v, (none : Option Text) = some v → newInfo.router_id = some v)
        ∧ ((none : Option Text) = none → newInfo.router_name
            = (PeerInfo.mk (some "r1".data) none none none none none).router_name)
        ∧ (∀ v, (none : Option Text) = some v → newInfo.router_name = some v)
        ∧ ((none : Option Text) = none → newInfo.vpn_network_id
            = (PeerInfo.mk (some "r1".data) none none none none none).vpn_network_id)
        ∧ (∀ v, (none : Option Text) = some v → newInfo.vpn_network_id = some v)
        ∧ ((none : Option Text) = none → newInfo.vpn_network_name
            = (PeerInfo.mk (some "r1".data) none none none none none).vpn_network_name)
        ∧ (∀ v, (none : Option Text) = some v → newInfo.vpn_network_name = some v)
        ∧ ((some "9.9.9.9".data : Option Text) = none → newInfo.peer_ip
            = (PeerInfo.mk (some "r1".data) none none none none none).peer_ip)
        ∧ (∀ v, (some "9.9.9.9".data : Option Text) = some v → newInfo.peer_ip = some v)
        ∧ ((none : Option Text) = none → newInfo.allowed_ips
            = (PeerInfo.mk (some "r1".data) none none none none none).allowed_ips)
        ∧ (∀ v, (none : Option Text) = some v → newInfo.allowed_ips = some v)
        ∧ ∀ q, q ≠ "PK1".data →
            cacheLookup (setPeerInfo [("PK1".data,
              PeerInfo.mk (some "r1".data) none none none none none)] "PK1".data
              none none none none (some "9.9.9.9".data) none) q
              = cacheLookup [("PK1".data,
                  PeerInfo.mk (some "r1".data) none none none none none)] q :=
  c10_set_peer_info_frame
    [("PK1".data, PeerInfo.mk (some "r1".data) none none none none none)]
    "PK1".data none none none none (some "9.9.9.9".data) none
    (PeerInfo.mk (some "r1".data) none none none none none)
    (by decide) (by decide)

end ClaimC10

section ClaimC2
/-! ## Claim C2 -/

theorem fsLookup_fsRemove_ne (fs : FileSys) (p q : Text) (h : q ≠ p) :
    fsLookup (fsRemove fs p) q = fsLookup fs q := by
  induction fs with
  | nil => rfl
  | cons e es ih =>
    by_cases he : e.1 = p
    · have hq : e.1 ≠ q := fun hh => h (hh ▸ he)
      have h1 : fsRemove (e :: es) p = fsRemove es p := by
        simp [fsRemove, List.filter, he]
      rw [h1, ih]
      simp [fsLookup, hq]
    · have h1 : fsRemove (e :: es) p = e :: fsRemove es p := by
        simp [fsRemove, List.filter, he]
      rw [h1]
      by_cases hq : e.1 = q
      · simp [fsLookup, hq]
      · simp [fsLookup, hq, ih]

theorem cleanupGo_covers (is : List Text) (fs : FileSys) (j : Text)
    (hj : j ∈ is) (hwg : startsWithT "wg-".data j = true) :
    Act.down j ∈ (cleanupGo is fs).2
    ∧ ((fsLookup fs (cfgPath j)).isSome →
        Act.removeFile (cfgPath j) ∈ (cleanupGo is fs).2) := by
  induction is generalizing fs with
  | nil => simp at hj
  | cons i is ih =>
    by_cases hi : startsWithT "wg-".data i = true
    · have heq : cleanupGo (i :: is) fs
          = ((cleanupGo is (fsRemove fs (cfgPath i))).1,
             (Act.down i ::
               (if (fsLookup fs (cfgPath i)).isSome
                then [Act.removeFile (cfgPath i)] else []))
               ++ (cleanupGo is (fsRemove fs (cfgPath i))).2) := by
        simp [cleanupGo, hi]
      rcases List.mem_cons.mp hj with rfl | hj2
      · refine ⟨?_, ?_⟩
        · rw [heq]
          exact List.mem_append_left _ (List.mem_cons_self _ _)
        · intro hsome
          rw [heq]
          exact List.mem_append_left _
            (List.mem_cons_of_mem _ (by simp [hsome]))
      · have hrec := ih (fsRemove fs (cfgPath i)) hj2
        by_cases hpq : cfgPath j = cfgPath i
        · refine ⟨?_, ?_⟩
          · rw [heq]
            exact List.mem_append_right _ hrec.1
          · intro hsome
            rw [heq]
            refine List.mem_append_left _ (List.mem_cons_of_mem _ ?_)
            rw [← hpq]
            simp [hsome]
        · refine ⟨?_, ?_⟩
          · rw [heq]
            exact List.mem_append_right _ hrec.1
          · intro hsome
            rw [heq]
            refine List.mem_append_right _ (hrec.2 ?_)
            rw [fsLookup_fsRemove_ne fs _ _ hpq]
            exact hsome
    · have heq : cleanupGo (i :: is) fs = cleanupGo is fs := by
        simp [cleanupGo, hi]
      rcases List.mem_cons.mp hj with rfl | hj2
      · exact absurd hwg (by simpa using hi)
      · rw [heq]
        exact ih fs hj2

/-- C2: when the snapshot fetch returns 404 (semantic absence), the sync
pass brings every interface whose name starts with `wg-` down, deletes its
config file when present, and sets `ManagedState`'s `vpn_networks` and
`routers` to empty lists. -/
theorem c2_snapshot_404_teardown (st : ManagedState) (env : SysEnv)
    (fs : FileSys) (now : Text) (vpns : List VpnNetwork)
    (routers : List Router) (i : Text) (hi : i ∈ env.existingIfaces)
    (hwg : startsWithT "wg-".data i = true) :
    (syncResourcesFromApi true (.response 404 vpns routers) st env fs now).1.vpn_networks = []
    ∧ (syncResourcesFromApi true (.response 404 vpns routers) st env fs now).1.routers = []
    ∧ Act.down i
        ∈ (syncResourcesFromApi true (.response 404 vpns routers) st env fs now).2.2
    ∧ ((fsLookup fs (cfgPath i)).isSome →
        Act.removeFile (cfgPath i)
          ∈ (syncResourcesFromApi true (.response 404 vpns routers) st env fs now).2.2) := by
  have hr : syncResourcesFromApi true (.response 404 vpns routers) st env fs now
      = ({ vpn_networks := [], routers := [], last_sync := some now },
         (cleanupAllInterfaces env fs).1, (cleanupAllInterfaces env fs).2) := by
    simp [syncResourcesFromApi]
  rw [hr]
  have hne : env.existingIfaces ≠ [] := by
    intro h0
    rw [h0] at hi
    simp at hi
  have hcl : cleanupAllInterfaces env fs = cleanupGo env.existingIfaces fs := by
    unfold cleanupAllInterfaces
    rw [if_neg hne]
  rw [hcl]
  exact ⟨rfl, rfl, (cleanupGo_covers env.existingIfaces fs i hi hwg).1,
    (cleanupGo_covers env.existingIfaces fs i hi hwg).2⟩

/-- C2 witness: a 404 pass over one live `wg-` interface with its config
file present. -/
theorem c2_snapshot_404_teardown_witness :
    (syncResourcesFromApi true (.response 404 [] []) ⟨[], [], none⟩ envAllOk fsC1x "T".data).1.vpn_networks = []
    ∧ (syncResourcesFromApi true (.response 404 [] []) ⟨[], [], none⟩ envAllOk fsC1x "T".data).1.routers = []
    ∧ Act.down "wg-aaaaaaaa".data
        ∈ (syncResourcesFromApi true (.response 404 [] []) ⟨[], [], none⟩ envAllOk fsC1x "T".data).2.2
    ∧ ((fsLookup fsC1x (cfgPath "wg-aaaaaaaa".data)).isSome →
        Act.removeFile (cfgPath "wg-aaaaaaaa".data)
          ∈ (syncResourcesFromApi true (.response 404 [] []) ⟨[], [], none⟩ envAllOk fsC1x "T".data).2.2) :=
  c2_snapshot_404_teardown ⟨[], [], none⟩ envAllOk fsC1x "T".data [] []
    "wg-aaaaaaaa".data (by decide) (by decide)

end ClaimC2

section ClaimC3
/-! ## Claim C3 -/

/-- C3: when the snapshot fetch fails transport-wise (timeout, connect
error, any other exception, or any non-200 non-404 HTTP status), the sync
pass mutates no kernel tunnel state, writes no config file, and leaves
`ManagedState` — including `last_sync` — exactly as it was. -/
theorem c3_transport_error_no_mutation (st : ManagedState) (env : SysEnv)
    (fs : FileSys) (now : Text) (code : Nat) (vpns : List VpnNetwork)
    (routers : List Router) (h200 : code ≠ 200) (h404 : code ≠ 404) :
    syncResourcesFromApi true (.response code vpns routers) st env fs now = (st, fs, [])
    ∧ syncResourcesFromApi true .timeoutErr st env fs now = (st, fs, [])
    ∧ syncResourcesFromApi true .connectErr st env fs now = (st, fs, [])
    ∧ syncResourcesFromApi true .otherExc st env fs now = (st, fs, []) := by
  refine ⟨?_, rfl, rfl, rfl⟩
  unfold syncResourcesFromApi
  simp [h200, h404]

/-- C3 witness: an HTTP 500 response (and each transport exception) leaves
the state, the files and the action trace untouched. -/
theorem c3_transport_error_no_mutation_witness :
    syncResourcesFromApi true (.response 500 [] []) ⟨[], [], some "S".data⟩ envAllOk fsC1x "T".data
        = (⟨[], [], some "S".data⟩, fsC1x, [])
    ∧ syncResourcesFromApi true .timeoutErr ⟨[], [], some "S".data⟩ envAllOk fsC1x "T".data
        = (⟨[], [], some "S".data⟩, fsC1x, [])
    ∧ syncResourcesFromApi true .connectErr ⟨[], [], some "S".data⟩ envAllOk fsC1x "T".data
        = (⟨[], [], some "S".data⟩, fsC1x, [])
    ∧ syncResourcesFromApi true .otherExc ⟨[], [], some "S".data⟩ envAllOk fsC1x "T".data
        = (⟨[], [], some "S".data⟩, fsC1x, []) :=
  c3_transport_error_no_mutation ⟨[], [], some "S".data⟩ envAllOk fsC1x "T".data
    500 [] [] (by decide) (by decide)

end ClaimC3

section ClaimC6
/-! ## Claim C6 -/

/-- C6: a peer that is disabled, or whose stripped public key or stripped
allowed-IPs is empty, is excluded from the rebuilt config: inserting such a
peer anywhere in any router's peer list leaves the rendered text unchanged. -/
theorem c6_disabled_or_blank_peer_excluded (vpn : VpnNetwork)
    (rs1 rs2 : List Router) (r : Router) (ps1 ps2 : List Peer) (p : Peer)
    (k sip : Text) (plen : Nat)
    (hexc : p.is_enabled = false ∨ stripT p.public_key = []
      ∨ stripT p.allowed_ips = []) :
    renderConfig vpn (rs1 ++ { r with peers := ps1 ++ p :: ps2 } :: rs2) k sip plen
      = renderConfig vpn (rs1 ++ { r with peers := ps1 ++ ps2 } :: rs2) k sip plen := by
  have hinc : includedPeer p = false := by
    rcases hexc with h | h | h <;> simp [includedPeer, h]
  have hlines : routerPeerLines vpn { r with peers := ps1 ++ p :: ps2 }
      = routerPeerLines vpn { r with peers := ps1 ++ ps2 } := by
    unfold routerPeerLines
    by_cases hid : r.vpn_network_id ≠ vpn.id
    · simp [hid]
    · have hpb : ∀ (q : Peer) (ps' : List Peer),
          peerBlockLines vpn { r with peers := ps' } q = peerBlockLines vpn r q :=
        fun _ _ => rfl
      simp [hid, List.map_append, hinc, hpb]
  simp [renderConfig, renderLines, List.map_append, hlines]

/-- C6 witness: inserting a disabled peer between two routers' rendered
peers changes nothing. -/
theorem c6_disabled_or_blank_peer_excluded_witness :
    renderConfig vpnC1w
        ([] ++ { id := "R1".data, name := "Rname".data,
                 vpn_network_id := "aaaaaaaa".data,
                 peers := [] ++ ({ id := "P1".data, public_key := "PK".data,
                                   allowed_ips := "10.0.0.2/32".data,
                                   is_enabled := false } : Peer)
                   :: [{ id := "P2".data, public_key := "PK2".data,
                         allowed_ips := "10.0.0.3/32".data,
                         is_enabled := true }] } :: [])
        "K".data "10.0.0.1".data 24
      = renderConfig vpnC1w
        ([] ++ { id := "R1".data, name := "Rname".data,
                 vpn_network_id := "aaaaaaaa".data,
                 peers := [] ++ [{ id := "P2".data, public_key := "PK2".data,
                                   allowed_ips := "10.0.0.3/32".data,
                                   is_enabled := true }] } :: [])
        "K".data "10.0.0.1".data 24 :=
  c6_disabled_or_blank_peer_excluded vpnC1w [] []
    { id := "R1".data, name := "Rname".data,
      vpn_network_id := "aaaaaaaa".data, peers := [] }
    []
    [{ id := "P2".data, public_key := "PK2".data,
       allowed_ips := "10.0.0.3/32".data, is_enabled := true }]
    { id := "P1".data, public_key := "PK".data,
      allowed_ips := "10.0.0.2/32".data, is_enabled := false }
    "K".data "10.0.0.1".data 24 (Or.inl rfl)

end ClaimC6

section ClaimC9
/-! ## Claim C9 -/

theorem scanPairsGo_skip (l : Text) (ls : List Text) (cur : Option Text)
    (h1 : startsWithT "# Router ID: ".data l = false)
    (h2 : startsWithT "# Public Key: ".data l = false) :
    scanPairsGo (l :: ls) cur = scanPairsGo ls cur := by
  simp [scanPairsGo, h1, h2]

theorem scanPairsGo_rid (x : Text) (ls : List Text) (cur : Option Text) :
    scanPairsGo (("# Router ID: ".data ++ x) :: ls) cur
      = scanPairsGo ls (some x) := rfl

theorem scanPairsGo_pk (x rid : Text) (ls : List Text) :
    scanPairsGo (("# Public Key: ".data ++ x) :: ls) (some rid)
      = (rid, x) :: scanPairsGo ls (some rid) := rfl

theorem scanPairsGo_peerBlock (vpn : VpnNetwork) (r : Router) (p : Peer)
    (ls : List Text) (cur : Option Text) :
    scanPairsGo (peerBlockLines vpn r p ++ ls) cur
      = (r.id, stripT p.public_key) :: scanPairsGo ls (some r.id) := rfl

theorem scanPairsGo_headerLines (k sip dns : Text) (plen : Nat)
    (ls : List Text) (cur : Option Text) :
    scanPairsGo (headerLines k sip plen dns ++ ls) cur = scanPairsGo ls cur := by
  rcases dns with _ | ⟨c, cs⟩
  · rfl
  · rfl

theorem scanPairsGo_peerList (vpn : VpnNetwork) (r : Router) (ps : List Peer) :
    ∀ (ls : List Text) (cur : Option Text),
    ∃ cur2 : Option Text,
      scanPairsGo
          ((ps.map (fun p => if includedPeer p then peerBlockLines vpn r p else [])).flatten
            ++ ls) cur
        = (ps.filter includedPeer).map (fun p => (r.id, stripT p.public_key))
            ++ scanPairsGo ls cur2 := by
  induction ps with
  | nil => intro ls cur; exact ⟨cur, by simp⟩
  | cons p ps ih =>
    intro ls cur
    by_cases hp : includedPeer p = true
    · obtain ⟨cur2, h2⟩ := ih ls (some r.id)
      refine ⟨cur2, ?_⟩
      simp only [List.map_cons, List.flatten_cons, if_pos hp, List.append_assoc]
      rw [scanPairsGo_peerBlock, h2]
      simp [List.filter_cons, hp]
    · obtain ⟨cur2, h2⟩ := ih ls cur
      refine ⟨cur2, ?_⟩
      simp only [List.map_cons, List.flatten_cons, if_neg hp, List.nil_append]
      rw [h2]
      simp [List.filter_cons, hp]

theorem scanPairsGo_routerList (vpn : VpnNetwork) (rs : List Router) :
    ∀ cur : Option Text,
    scanPairsGo ((rs.map (routerPeerLines vpn)).flatten ++ [[]]) cur
      = (rs.map (fun r =>
          if r.vpn_network_id = vpn.id then
            (r.peers.filter includedPeer).map (fun p => (r.id, stripT p.public_key))
          else [])).flatten := by
  induction rs with
  | nil =>
    intro cur
    rfl
  | cons r rs ih =>
    intro cur
    by_cases hid : r.vpn_network_id = vpn.id
    · have hrl : routerPeerLines vpn r
          = (r.peers.map
              (fun p => if includedPeer p then peerBlockLines vpn r p else [])).flatten := by
        simp [routerPeerLines, hid]
      obtain ⟨cur2, h2⟩ :=
        scanPairsGo_peerList vpn r r.peers ((rs.map (routerPeerLines vpn)).flatten ++ [[]]) cur
      simp only [List.map_cons, List.flatten_cons, List.append_assoc, hrl]
      rw [h2, ih cur2]
      simp [hid]
    · have hrl : routerPeerLines vpn r = [] := by
        simp [routerPeerLines, hid]
      simp only [List.map_cons, List.flatten_cons, List.append_assoc, hrl, List.nil_append]
      rw [ih cur]
      simp [hid]

theorem renderLines_noNl (vpn : VpnNetwork) (routers : List Router)
    (k sip : Text) (plen : Nat)
    (hk : '\n' ∉ k) (hsip : '\n' ∉ sip) (hdns : '\n' ∉ vpn.dns_servers)
    (hvn : '\n' ∉ vpn.name) (hvi : '\n' ∉ vpn.id)
    (hr : ∀ r ∈ routers, '\n' ∉ r.id ∧ '\n' ∉ r.name ∧
      ∀ p ∈ r.peers, '\n' ∉ stripT p.public_key
        ∧ '\n' ∉ peerCommentIp (stripT p.allowed_ips)
        ∧ '\n' ∉ normalizeAllowedIps (stripT p.allowed_ips)) :
    ∀ l ∈ renderLines vpn routers k sip plen, '\n' ∉ l := by
  intro l hl
  unfold renderLines at hl
  rcases List.mem_append.mp hl with hh | hb
  · unfold headerLines at hh
    rcases List.mem_append.mp hh with h1 | h2
    · rcases List.mem_append.mp h1 with h3 | h4
      · simp only [List.mem_cons, List.not_mem_nil, or_false] at h3
        rcases h3 with rfl | rfl | rfl | rfl
        · decide
        · simp [List.mem_append, hk, show '\n' ∉ "PrivateKey = ".data from by decide]
        · simp [List.mem_append, hsip, natText_noNl plen,
            show '\n' ∉ "Address = ".data from by decide,
            show '\n' ∉ ['/'] from by decide]
        · decide
      · by_cases hd : vpn.dns_servers ≠ []
        · rw [if_pos hd] at h4
          simp only [List.mem_singleton] at h4
          subst h4
          simp [List.mem_append, hdns, show '\n' ∉ "DNS = ".data from by decide]
        · rw [if_neg hd] at h4
          simp at h4
    · simp only [List.mem_cons, List.not_mem_nil, or_false] at h2
      rcases h2 with rfl | rfl | rfl
      · decide
      · decide
      · decide
  · obtain ⟨bl, hbl, hlbl⟩ := List.mem_flatten.mp hb
    obtain ⟨r, hrmem, rfl⟩ := List.mem_map.mp hbl
    obtain ⟨hrid, hrname, hps⟩ := hr r hrmem
    unfold routerPeerLines at hlbl
    by_cases hid : r.vpn_network_id ≠ vpn.id
    · rw [if_pos hid] at hlbl
      simp at hlbl
    · rw [if_neg hid] at hlbl
      obtain ⟨bl2, hbl2, hlbl2⟩ := List.mem_flatten.mp hlbl
      obtain ⟨p, hpmem, rfl⟩ := List.mem_map.mp hbl2
      obtain ⟨hpk, hip, hips⟩ := hps p hpmem
      by_cases hinc : includedPeer p = true
      · rw [if_pos hinc] at hlbl2
        simp only [peerBlockLines, List.mem_cons, List.not_mem_nil, or_false] at hlbl2
        rcases hlbl2 with rfl|rfl|rfl|rfl|rfl|rfl|rfl|rfl|rfl|rfl|rfl|rfl|rfl
        · decide
        · simp [List.mem_append, hrname, show '\n' ∉ "# Router: ".data from by decide]
        · simp [List.mem_append, hrid, show '\n' ∉ "# Router ID: ".data from by decide]
        · simp [List.mem_append, hvn, show '\n' ∉ "# VPN Network: ".data from by decide]
        · simp [List.mem_append, hvi, show '\n' ∉ "# VPN Network ID: ".data from by decide]
        · simp [List.mem_append, hip, show '\n' ∉ "# Peer IP: ".data from by decide]
        · simp [List.mem_append, hpk, show '\n' ∉ "# Public Key: ".data from by decide]
        · decide
        · decide
        · simp [List.mem_append, hpk, show '\n' ∉ "PublicKey = ".data from by decide]
        · simp [List.mem_append, hips, show '\n' ∉ "AllowedIPs = ".data from by decide]
        · decide
        · decide
      · rw [if_neg hinc] at hlbl2
        simp at hlbl2

/-- C9 counterexample: with two routers listed in descending id order, the
`(router id, public key)` pairs read back from the rendered config text are
not sorted — `rebuild_interface_config` emits peer blocks in snapshot list
order, not in `(router_id, public_key)` order. -/
theorem c9_counterexample :
    sortedPairs (scanPairs
      (renderConfig vpnC1w [routerC9b, routerC9a] "K".data "10.0.0.1".data 24)) = false := by
  decide

/-- C9 (amended): the `(router id, public key)` pairs readable from the
rendered config text are exactly, in order, the pairs of the snapshot's
matching routers' included peers in snapshot list order (no sorting),
provided the embedded text fields contain no newline. -/
theorem c9_peer_pairs_snapshot_order (vpn : VpnNetwork) (routers : List Router)
    (k sip : Text) (plen : Nat)
    (hk : '\n' ∉ k) (hsip : '\n' ∉ sip) (hdns : '\n' ∉ vpn.dns_servers)
    (hvn : '\n' ∉ vpn.name) (hvi : '\n' ∉ vpn.id)
    (hr : ∀ r ∈ routers, '\n' ∉ r.id ∧ '\n' ∉ r.name ∧
      ∀ p ∈ r.peers, '\n' ∉ stripT p.public_key
        ∧ '\n' ∉ peerCommentIp (stripT p.allowed_ips)
        ∧ '\n' ∉ normalizeAllowedIps (stripT p.allowed_ips)) :
    scanPairs (renderConfig vpn routers k sip plen)
      = (routers.map (fun r =>
          if r.vpn_network_id = vpn.id then
            (r.peers.filter includedPeer).map (fun p => (r.id, stripT p.public_key))
          else [])).flatten := by
  unfold scanPairs renderConfig
  rw [splitNl_unlinesT _ (renderLines_noNl vpn routers k sip plen hk hsip hdns hvn hvi hr)]
  unfold renderLines
  rw [List.append_assoc, scanPairsGo_headerLines]
  exact scanPairsGo_routerList vpn routers none

/-- C9 witness: the amended statement at a two-router snapshot already in
ascending order. -/
theorem c9_peer_pairs_snapshot_order_witness :
    scanPairs (renderConfig vpnC1w [routerC9a, routerC9b] "K".data "10.0.0.1".data 24)
      = ([routerC9a, routerC9b].map (fun r =>
          if r.vpn_network_id = vpnC1w.id then
            (r.peers.filter includedPeer).map (fun p => (r.id, stripT p.public_key))
          else [])).flatten :=
  c9_peer_pairs_snapshot_order vpnC1w [routerC9a, routerC9b] "K".data "10.0.0.1".data 24
    (by decide) (by decide) (by decide) (by decide) (by decide) (by decide)

end ClaimC9
